import Mathlib

/-!
Verification of the LiuYao_AI document/RAG subsystem against its
natural-language specification.

The Python sources are embedded shallowly: text is `List Char` (Python
string indexing/length is by code point, matching `List Char` length),
floats are exact rationals `ℚ`, fallible operations return
`Option`/`Except`, and external capabilities (the jieba tokenizer, the
sklearn TF-IDF scorer, the wall clock, the file system) are parameters
of the embedded functions.  Every definition follows the corresponding
Python function statement by statement; the file ends with the theorems
settling the claims.
-/

namespace LiuYao

/- Batteries marks rational arithmetic `@[irreducible]`, which blocks
`decide` on concrete rational computations; re-enable unfolding locally. -/
attribute [local semireducible] Rat.add Rat.sub Rat.mul Rat.inv

/-! ## Basic text utilities (Python `str.strip`, `re.split`, slicing) -/

/-- Python `str.strip()` with no argument: drop whitespace from both ends. -/
def pyStrip (s : List Char) : List Char :=
  ((s.dropWhile Char.isWhitespace).reverse.dropWhile Char.isWhitespace).reverse

/-- Python `abs` on a float, embedded over `ℚ`. -/
def ratAbs (x : ℚ) : ℚ := if x < 0 then -x else x

/-- Python `max(a, b)`: returns `a` when the two compare equal. -/
def pyMax (a b : ℚ) : ℚ := if b ≤ a then a else b

/-- Python `re.split` on a single-character class: cut the text at every
character satisfying `p`, the separators being dropped.  Always returns at
least one (possibly empty) field, exactly like `re.split`. -/
def splitOnPred (p : Char → Bool) : List Char → List (List Char)
  | [] => [[]]
  | c :: rest =>
    let r := splitOnPred p rest
    if p c then [] :: r
    else
      match r with
      | [] => [[c]]
      | g :: gs => (c :: g) :: gs

/-- The fixed-width hard slice `for i in range(0, len(s), n): s[i:i+n]` from
`DatabaseBuilder.chunk_text` (src/src/build_database.py lines 176-178).
Python raises on step `n = 0`; the embedding returns `[]` there and every
theorem about it assumes `0 < n`. -/
def hardSlice (n : Nat) (s : List Char) : List (List Char) :=
  if h : s = [] ∨ n = 0 then []
  else s.take n :: hardSlice n (s.drop n)
termination_by s.length
decreasing_by
  have hs : s ≠ [] := fun hh => h (Or.inl hh)
  have hn : n ≠ 0 := fun hh => h (Or.inr hh)
  cases s with
  | nil => exact absurd rfl hs
  | cons a as =>
    cases n with
    | zero => exact absurd rfl hn
    | succ m =>
      simp only [List.drop_succ_cons, List.length_cons]
      have := List.length_drop m as
      omega

/-! ## `DatabaseBuilder.chunk_text` (src/src/build_database.py lines 152-193) -/

/-- The major sentence punctuation 。！？； of `re.split(r'[。！？；]', text)`. -/
def isMajorPunct (c : Char) : Bool :=
  c = '。' || c = '！' || c = '？' || c = '；'

/-- The minor clause punctuation ，、；： of `re.split(r'[，、；：]', sentence)`. -/
def isMinorPunct (c : Char) : Bool :=
  c = '，' || c = '、' || c = '；' || c = '：'

/-- The inner loop of `chunk_text` over the minor-punctuation clauses of one
over-long sentence (lines 169-181).  State: emitted chunks and the running
`current_chunk`. -/
def chunkSubLoop (n : Nat) : List (List Char) → List (List Char) → List Char →
    List (List Char) × List Char
  | [], chunks, current => (chunks, current)
  | sub :: rest, chunks, current =>
    if current.length + sub.length ≤ n then
      chunkSubLoop n rest chunks (current ++ sub ++ ['，'])
    else
      let chunks1 := if current = [] then chunks else chunks ++ [pyStrip current]
      if n < sub.length then
        chunkSubLoop n rest (chunks1 ++ hardSlice n sub) []
      else
        chunkSubLoop n rest chunks1 (sub ++ ['，'])

/-- The outer loop of `chunk_text` over the major-punctuation sentences
(lines 160-188). -/
def chunkSentLoop (n : Nat) : List (List Char) → List (List Char) → List Char →
    List (List Char) × List Char
  | [], chunks, current => (chunks, current)
  | sent :: rest, chunks, current =>
    if n < sent.length then
      let chunks1 := if current = [] then chunks else chunks ++ [pyStrip current]
      let subs := ((splitOnPred isMinorPunct sent).map pyStrip).filter (fun s => s ≠ [])
      let r := chunkSubLoop n subs chunks1 []
      chunkSentLoop n rest r.1 r.2
    else
      if current.length + sent.length ≤ n then
        chunkSentLoop n rest chunks (current ++ sent ++ ['。'])
      else
        let chunks1 := if current = [] then chunks else chunks ++ [pyStrip current]
        chunkSentLoop n rest chunks1 (sent ++ ['。'])

/-- `DatabaseBuilder.chunk_text(text)` with `chunk_size = n`
(src/src/build_database.py lines 152-193). -/
def chunkText (n : Nat) (text : List Char) : List (List Char) :=
  let sentences := ((splitOnPred isMajorPunct text).map pyStrip).filter (fun s => s ≠ [])
  let r := chunkSentLoop n sentences [] []
  if r.2 = [] then r.1 else r.1 ++ [pyStrip r.2]

/-! ## File monitoring (src/utils/file_monitor.py and src/src/incremental_update.py) -/

/-- The per-file data `{size, mtime, hash}` computed by
`FileMonitor._scan_folder` and stored in its JSON cache (the redundant
`path` field plays no role in the comparison and is omitted).  `mtime` is
an `os.stat` float, embedded as an exact rational. -/
structure FileEntry where
  size : Nat
  mtime : ℚ
  hash : List Char
deriving DecidableEq

/-- `FileInfo` of src/src/incremental_update.py lines 23-40. -/
structure FileInfo where
  path : List Char
  size : Nat
  mtime : ℚ
  hash : List Char
  chunksCount : Nat := 0
deriving DecidableEq

/-- `FileInfo.__eq__` (src/src/incremental_update.py lines 32-37): size and
hash must match exactly, the modification times within 1 second. -/
def fileInfoEq (a b : FileInfo) : Bool :=
  decide (a.size = b.size) && decide (ratAbs (a.mtime - b.mtime) < 1) &&
    decide (a.hash = b.hash)

/-- The per-file modification test of `FileMonitor.check_changes`
(src/utils/file_monitor.py lines 111-115): any difference in size, mtime
or hash — mtime compared with plain `!=`, no tolerance. -/
def monitorEntryDiffers (cur cached : FileEntry) : Bool :=
  decide (cur.size ≠ cached.size) || decide (cur.mtime ≠ cached.mtime) ||
    decide (cur.hash ≠ cached.hash)

/-- First-match association lookup (Python `dict` access / `in`). -/
def lookupAssoc {β : Type} (m : List (List Char × β)) (k : List Char) : Option β :=
  ((m.find? (fun p => p.1 = k)).map (fun p => p.2))

/-- The change report of `FileMonitor.check_changes`. -/
structure Changes where
  added : List (List Char)
  modified : List (List Char)
  deleted : List (List Char)
  totalFiles : Nat
deriving DecidableEq

/-- `FileMonitor.check_changes` (src/utils/file_monitor.py lines 90-134).
`current` is the `_scan_folder()` result in directory-listing order;
`cachedData` is the loaded cache, `none` when the cache file is missing or
unreadable (`_load_cache` returns `{}`).  Returns
`(has_changes, changes, cache after the call)`. -/
def checkChanges (current : List (List Char × FileEntry))
    (cachedData : Option (List (List Char × FileEntry))) :
    Bool × Changes × Option (List (List Char × FileEntry)) :=
  let cachedFiles := cachedData.getD []
  let added := (current.filter (fun p => (lookupAssoc cachedFiles p.1).isNone)).map
    (fun p => p.1)
  let modified := (current.filter (fun p =>
    match lookupAssoc cachedFiles p.1 with
    | none => false
    | some e => monitorEntryDiffers p.2 e)).map (fun p => p.1)
  let deleted := (cachedFiles.filter (fun p => (lookupAssoc current p.1).isNone)).map
    (fun p => p.1)
  let hasChanges := !added.isEmpty || !modified.isEmpty || !deleted.isEmpty
  let newCache := if hasChanges || cachedData.isNone then some current else cachedData
  (hasChanges, ⟨added, modified, deleted, current.length⟩, newCache)

/-! ## Database building (src/src/build_database.py) and incremental update
(src/src/incremental_update.py)

The file system and the external text-extraction / keyword-extraction
capabilities (python-docx, jieba) are parameters: a folder is the list of
`(filename, extracted raw text)` pairs in directory-listing order, with an
empty text standing for an unreadable file (`extract_text_from_file`
returns `""` on failure), and `extractKw` stands for
`DatabaseBuilder.extract_keywords`. -/

/-- The CJK range `一-鿿` of `preprocess_text`. -/
def isCJK (c : Char) : Bool := 0x4e00 ≤ c.toNat && c.toNat ≤ 0x9fff

/-- Python regex `\w` (approximated over the characters that occur here:
ASCII alphanumerics, underscore and CJK ideographs). -/
def isWordCharPy (c : Char) : Bool := c.isAlphanum || c = '_' || isCJK c

/-- Helper for `collapseWs`: `prevWs` records whether the previous kept
position was inside a whitespace run. -/
def collapseWsGo (prevWs : Bool) : List Char → List Char
  | [] => []
  | c :: rest =>
    if c.isWhitespace then
      if prevWs then collapseWsGo true rest
      else ' ' :: collapseWsGo true rest
    else c :: collapseWsGo false rest

/-- `re.sub(r'\s+', ' ', text)`: collapse every whitespace run to one space. -/
def collapseWs (t : List Char) : List Char := collapseWsGo false t

/-- `DatabaseBuilder.preprocess_text` (src/src/build_database.py lines
145-150): collapse whitespace, keep only CJK / word characters / whitespace
and the punctuation 。，！？；：, then strip. -/
def preprocessText (t : List Char) : List Char :=
  pyStrip ((collapseWs t).filter (fun c =>
    isCJK c || isWordCharPy c || c.isWhitespace ||
      c = '。' || c = '，' || c = '！' || c = '？' || c = '；' || c = '：'))

/-- `os.path.splitext(filename)[1].lower()`: the lowercased extension
(text after and including the last dot, empty when there is none). -/
def fileExtLower (name : List Char) : List Char :=
  let tailRev := name.reverse.takeWhile (fun c => c ≠ '.')
  if tailRev.length = name.length then []
  else '.' :: (tailRev.reverse.map Char.toLower)

/-- The builder's supported extensions `['.docx', '.txt', '.csv']`
(src/src/build_database.py line 214). -/
def builderSupportedExt (name : List Char) : Bool :=
  fileExtLower name = ".docx".toList || fileExtLower name = ".txt".toList ||
    fileExtLower name = ".csv".toList

/-- Decimal digits of a `Nat` (Python string interpolation of a counter). -/
def natChars (n : Nat) : List Char := Nat.toDigits 10 n

/-- `DocumentChunk` (src/src/build_database.py lines 30-38).  The
`metadata` dictionary and the `tfidf_vector` (owned by the database's
TF-IDF index) are build-time bookkeeping no claim mentions and are not
modelled. -/
structure DocumentChunk where
  id : List Char
  content : List Char
  sourceFile : List Char
  keywords : List (List Char)
deriving DecidableEq

/-- The chunk-object loop of `DatabaseBuilder.scan_documents` (lines
245-265): ids are `chunk_{counter}` with a global counter. -/
def mkBuilderChunks (extractKw : List Char → List (List Char))
    (filename : List Char) : List (List Char) → Nat → List DocumentChunk
  | [], _ => []
  | content :: rest, counter =>
    { id := "chunk_".toList ++ natChars counter, content := content,
      sourceFile := filename, keywords := extractKw content } ::
      mkBuilderChunks extractKw filename rest (counter + 1)

/-- `DatabaseBuilder.scan_documents` (lines 208-267): skip unsupported
extensions and unreadable (empty-text) files, preprocess, chunk with
`chunk_size = 500`, and build `DocumentChunk`s with a running counter. -/
def scanDocsGo (extractKw : List Char → List (List Char)) :
    List (List Char × List Char) → Nat → List DocumentChunk
  | [], _ => []
  | (filename, raw) :: rest, counter =>
    if builderSupportedExt filename ∧ raw ≠ [] then
      let newChunks :=
        mkBuilderChunks extractKw filename (chunkText 500 (preprocessText raw)) counter
      newChunks ++ scanDocsGo extractKw rest (counter + newChunks.length)
    else scanDocsGo extractKw rest counter

/-- The serialized database of `DatabaseBuilder.build_database` (lines
337-348).  The fitted TF-IDF vectorizer/matrix and BM25 model, the
timestamps and the per-file metadata are external/bookkeeping state no
claim mentions. -/
structure Database where
  chunks : List DocumentChunk
  totalChunks : Nat
  sourceFiles : List (List Char)
deriving DecidableEq

/-- `DatabaseBuilder.build_database` (src/src/build_database.py lines
302-361): scan the folder, fail when no chunk was produced, otherwise
serialize `total_chunks = len(chunks)` and
`source_files = list(set(chunk.source_file ...))`.  A missing folder is
the other fatal error; in the embedding it coincides with an empty
folder listing. -/
def buildDatabase (extractKw : List Char → List (List Char))
    (folder : List (List Char × List Char)) : Except (List Char) Database :=
  let chunks := scanDocsGo extractKw folder 0
  if chunks.isEmpty then Except.error "没有找到可处理的文档或所有文档处理失败".toList
  else
    Except.ok
      { chunks := chunks, totalChunks := chunks.length,
        sourceFiles := (chunks.map (fun c => c.sourceFile)).dedup }

/-- `os.path.basename`. -/
def basename (p : List Char) : List Char :=
  (p.reverse.takeWhile (fun c => c ≠ '/')).reverse

/-- The chunk loop of `IncrementalUpdater.process_file_chunks`
(src/src/incremental_update.py lines 249-269): ids are
`{basename}_{index}` with a per-file index. -/
def mkUpdaterChunks (extractKw : List Char → List (List Char))
    (srcName : List Char) : List (List Char) → Nat → List DocumentChunk
  | [], _ => []
  | content :: rest, i =>
    { id := srcName ++ ['_'] ++ natChars i, content := content,
      sourceFile := srcName, keywords := extractKw content } ::
      mkUpdaterChunks extractKw srcName rest (i + 1)

/-- `IncrementalUpdater.process_file_chunks` (lines 232-276). `readText`
is the external extraction capability; empty text means extraction
failed, yielding no chunks. -/
def processFileChunks (extractKw : List Char → List (List Char))
    (readText : List Char → List Char) (filePath : List Char) : List DocumentChunk :=
  let raw := readText filePath
  if raw = [] then []
  else mkUpdaterChunks extractKw (basename filePath)
    (chunkText 500 (preprocessText raw)) 0

/-- `IncrementalUpdater.update_database_incremental`
(src/src/incremental_update.py lines 301-420), taking the delta sets
produced by `scan_folder_changes` as inputs: with no change it returns
`None` (Python `False`, nothing written); otherwise it drops the chunks
of deleted and modified files, re-chunks modified and new files, and
serializes `total_chunks = len(updated_chunks)` and
`source_files = list(set(...))` (lines 392-400).  The file-metadata and
derived-cache bookkeeping is not modelled. -/
def updateDatabaseIncremental (extractKw : List Char → List (List Char))
    (readText : List Char → List Char) (db : Database)
    (newFiles modifiedFiles deletedFiles : List (List Char)) : Option Database :=
  if newFiles = [] ∧ modifiedFiles = [] ∧ deletedFiles = [] then none
  else
    let deletedSources := deletedFiles.map basename
    let kept := db.chunks.filter (fun c => decide (c.sourceFile ∉ deletedSources))
    let afterMod := modifiedFiles.foldl (fun acc f =>
      (acc.filter (fun c => c.sourceFile ≠ basename f)) ++
        processFileChunks extractKw readText f) kept
    let updated := newFiles.foldl (fun acc f =>
      acc ++ processFileChunks extractKw readText f) afterMod
    some
      { chunks := updated, totalChunks := updated.length,
        sourceFiles := (updated.map (fun c => c.sourceFile)).dedup }

/-! ## History persistence (src/utils/history.py)

`datetime.now()` is an external clock: `add_record` receives the current
reading as a parameter.  `save_history` writes the whole list and returns
a boolean, catching every exception; its outcome is the `saveOk`
parameter where a contract mentions it. -/

/-- One wall-clock reading, at the microsecond-truncated-to-millisecond
resolution used by `add_record`. -/
structure PyDateTime where
  year : Nat
  month : Nat
  day : Nat
  hour : Nat
  minute : Nat
  second : Nat
  millis : Nat
deriving DecidableEq

/-- Field bounds under which the `strftime` zero-padded fields have their
nominal widths (every real `datetime` satisfies them). -/
def validDT (t : PyDateTime) : Prop :=
  t.year < 10000 ∧ t.month < 100 ∧ t.day < 100 ∧ t.hour < 100 ∧
    t.minute < 100 ∧ t.second < 100 ∧ t.millis < 1000

instance (t : PyDateTime) : Decidable (validDT t) := by
  unfold validDT; infer_instance

/-- Chronological order of clock readings, encoded as one mixed-radix
number (year, month, day, hour, minute, second, millisecond). -/
def dtKey (t : PyDateTime) : Nat :=
  (((((t.year * 100 + t.month) * 100 + t.day) * 100 + t.hour) * 100 +
    t.minute) * 100 + t.second) * 1000 + t.millis

/-- Zero-padded fixed-width decimal rendering (`strftime` field). -/
def pad : Nat → Nat → List Char
  | 0, _ => []
  | k + 1, n => Nat.digitChar (n / 10 ^ k) :: pad k (n % 10 ^ k)

/-- `datetime.now().strftime("%Y%m%d_%H%M%S_%f")[:-3]`, the record id of
`HistoryManager.add_record` (src/utils/history.py line 87). -/
def idChars (t : PyDateTime) : List Char :=
  pad 4 t.year ++ (pad 2 t.month ++ (pad 2 t.day ++ (['_'] ++ (pad 2 t.hour ++
    (pad 2 t.minute ++ (pad 2 t.second ++ (['_'] ++ pad 3 t.millis)))))))

/-- `datetime.now().strftime("%Y-%m-%d %H:%M:%S")`, the human-readable
timestamp (line 88). -/
def tsChars (t : PyDateTime) : List Char :=
  pad 4 t.year ++ ['-'] ++ pad 2 t.month ++ ['-'] ++ pad 2 t.day ++ [' '] ++
    pad 2 t.hour ++ [':'] ++ pad 2 t.minute ++ [':'] ++ pad 2 t.second

/-- One chat exchange entry `{message, is_user, is_error}`. -/
structure ChatMessage where
  message : List Char
  isUser : Bool
  isError : Bool
deriving DecidableEq

/-- `HistoryRecord` (src/utils/history.py lines 18-46). -/
structure HistoryRecordL where
  id : List Char
  timestamp : List Char
  question : List Char
  divinationMethod : List Char
  yongshen : List Char
  fangmian : List Char
  model : List Char
  hexagramInfo : List Char
  analysisResult : List Char
  tags : List (List Char)
  chatMessages : List ChatMessage
deriving DecidableEq

/-- The record built by one `add_record` call with empty tags and chat
messages (the `historyAfter` payload). -/
def mkHistoryRecord (now : PyDateTime)
    (q dm ys fm mdl hex res : List Char) : HistoryRecordL :=
  ⟨idChars now, tsChars now, q, dm, ys, fm, mdl, hex, res, [], []⟩

/-- `HistoryManager.add_record` (src/utils/history.py lines 83-107): stamp
a millisecond id and a timestamp from the clock, insert at the head, save
(outcome ignored), return the id.  The source stamps id and timestamp
from two separate `datetime.now()` calls; the embedding reads the clock
once. -/
def addRecord (now : PyDateTime) (records : List HistoryRecordL)
    (question divinationMethod yongshen fangmian model hexagramInfo
      analysisResult : List Char) (tags : List (List Char))
    (chatMessages : List ChatMessage) : List Char × List HistoryRecordL :=
  let rid := idChars now
  (rid,
    { id := rid, timestamp := tsChars now, question := question,
      divinationMethod := divinationMethod, yongshen := yongshen,
      fangmian := fangmian, model := model, hexagramInfo := hexagramInfo,
      analysisResult := analysisResult, tags := tags,
      chatMessages := chatMessages } :: records)

/-- A sequence of `add_record` calls with fixed payload on a fresh
manager, driven by the successive clock readings `times`. -/
def historyAfter (q dm ys fm mdl hex res : List Char)
    (times : List PyDateTime) : List HistoryRecordL :=
  times.foldl
    (fun st t => (addRecord t st q dm ys fm mdl hex res [] []).2) []

/-- `HistoryManager.delete_record` (src/utils/history.py lines 147-155):
delete the first record with the given id and return `True`, not
consulting the `save_history` outcome `saveOk`; `False` when absent. -/
def deleteRecord (saveOk : Bool) (rid : List Char) :
    List HistoryRecordL → List HistoryRecordL × Bool
  | [] => ([], false)
  | r :: rest =>
    if r.id = rid then (rest, true)
    else
      let p := deleteRecord saveOk rid rest
      (r :: p.1, p.2)

/-- `HistoryManager.clear_all_records` (src/utils/history.py lines
157-166): reset the list and return `True`; the `except` branch is
unreachable because `save_history` catches its own exceptions, so the
`saveOk` outcome never surfaces. -/
def clearAllRecords (saveOk : Bool) (records : List HistoryRecordL) :
    List HistoryRecordL × Bool :=
  ([], true)

/-! ## AI-reply parsing (src/utils/network.py lines 173-213)

`json.loads` is a Python-stdlib capability; it is embedded as a
recursive-descent parser `jsonLoads` over the JSON subset exercised by
the AI-reply texts (objects, arrays, unescaped strings, integers,
booleans, null).  The two `re.search` fallbacks are embedded with their
exact leftmost / greedy / lazy semantics for the two patterns used. -/

/-- Parsed JSON values. -/
inductive Json where
  | null : Json
  | bool (b : Bool) : Json
  | num (n : Int) : Json
  | str (s : List Char) : Json
  | arr (elems : List Json) : Json
  | obj (fields : List (List Char × Json)) : Json

/-- The whitespace accepted between JSON tokens by `json.loads`. -/
def jsonWs (c : Char) : Bool := c = ' ' || c = '\t' || c = '\n' || c = '\r'

/-- Skip inter-token whitespace. -/
def skipJsonWs (s : List Char) : List Char := s.dropWhile jsonWs

/-- Body of a JSON string after the opening quote (escape sequences are
outside the modelled subset). -/
def parseStringBody : List Char → Option (List Char × List Char)
  | [] => none
  | c :: rest =>
    if c = '"' then some ([], rest)
    else if c = '\\' then none
    else (parseStringBody rest).map (fun p => (c :: p.1, p.2))

/-- Decimal value of a digit run. -/
def digitsToNat (l : List Char) : Nat :=
  l.foldl (fun a c => a * 10 + (c.toNat - 48)) 0

/-- A non-empty digit run and the remaining input. -/
def parseNatJ (s : List Char) : Option (Nat × List Char) :=
  let digits := s.takeWhile Char.isDigit
  if digits = [] then none
  else some (digitsToNat digits, s.drop digits.length)

/-- A JSON integer literal (fractions/exponents are outside the subset). -/
def parseNumberJ (s : List Char) : Option (Json × List Char) :=
  match s with
  | '-' :: rest => (parseNatJ rest).map (fun p => (Json.num (-(p.1 : Int)), p.2))
  | _ => (parseNatJ s).map (fun p => (Json.num (p.1 : Int), p.2))

mutual

/-- One JSON value, fuelled. -/
def parseValue : Nat → List Char → Option (Json × List Char)
  | 0, _ => none
  | fuel + 1, s =>
    match skipJsonWs s with
    | [] => none
    | c :: rest =>
      if c = '"' then (parseStringBody rest).map (fun p => (Json.str p.1, p.2))
      else if c = '[' then
        match skipJsonWs rest with
        | ']' :: rest2 => some (Json.arr [], rest2)
        | _ => (parseArrayItems fuel rest).map (fun p => (Json.arr p.1, p.2))
      else if c = '\x7b' then
        match skipJsonWs rest with
        | '\x7d' :: rest2 => some (Json.obj [], rest2)
        | _ => (parseObjItems fuel rest).map (fun p => (Json.obj p.1, p.2))
      else if c = 't' then
        if "rue".toList.isPrefixOf rest then some (Json.bool true, rest.drop 3)
        else none
      else if c = 'f' then
        if "alse".toList.isPrefixOf rest then some (Json.bool false, rest.drop 4)
        else none
      else if c = 'n' then
        if "ull".toList.isPrefixOf rest then some (Json.null, rest.drop 3)
        else none
      else parseNumberJ (c :: rest)

/-- The comma-separated items of a non-empty JSON array, up to `]`. -/
def parseArrayItems : Nat → List Char → Option (List Json × List Char)
  | 0, _ => none
  | fuel + 1, s =>
    match parseValue fuel s with
    | none => none
    | some (v, rest) =>
      match skipJsonWs rest with
      | ',' :: rest2 => (parseArrayItems fuel rest2).map (fun p => (v :: p.1, p.2))
      | ']' :: rest2 => some ([v], rest2)
      | _ => none

/-- The members of a non-empty JSON object, up to the closing brace. -/
def parseObjItems : Nat → List Char → Option (List (List Char × Json) × List Char)
  | 0, _ => none
  | fuel + 1, s =>
    match skipJsonWs s with
    | '"' :: rest =>
      match parseStringBody rest with
      | none => none
      | some (key, rest2) =>
        match skipJsonWs rest2 with
        | ':' :: rest3 =>
          match parseValue fuel rest3 with
          | none => none
          | some (v, rest4) =>
            match skipJsonWs rest4 with
            | ',' :: rest5 =>
              (parseObjItems fuel rest5).map (fun p => ((key, v) :: p.1, p.2))
            | '\x7d' :: rest5 => some ([(key, v)], rest5)
            | _ => none
        | _ => none
    | _ => none

end

/-- `json.loads(s)`: one JSON document with only whitespace around it. -/
def jsonLoads (s : List Char) : Option Json :=
  match parseValue (s.length + 1) s with
  | some (v, rest) => if skipJsonWs rest = [] then some v else none
  | none => none

/-- Index of the first non-whitespace character at or after `i`
(`re` module `\s*`, greedy and deterministic before a non-`\s` literal). -/
def firstNonWsIdx (s : List Char) (i : Nat) : Nat :=
  i + ((s.drop i).takeWhile Char.isWhitespace).length

/-- End position of the greedy `.*` of `r'\[\s*{.*}\s*\]'` (DOTALL) once
the match start is fixed: the largest `k > j` holding `}` followed by
whitespace and `]`; returns the index of that `]`. -/
def arrayObjEndAt (s : List Char) (j : Nat) : Option Nat :=
  ((List.range s.length).reverse.find? (fun k =>
    decide (j < k) && (s.get? k == some '\x7d') &&
      (s.get? (firstNonWsIdx s (k + 1)) == some ']'))).map
    (fun k => firstNonWsIdx s (k + 1))

/-- Whether `r'\[\s*{.*}\s*\]'` matches starting exactly at `i`; returns
the end index of the match. -/
def arrayObjMatchAt (s : List Char) (i : Nat) : Option Nat :=
  if s.get? i == some '[' then
    let j := firstNonWsIdx s (i + 1)
    if s.get? j == some '\x7b' then arrayObjEndAt s j else none
  else none

/-- `re.search(r'\[\s*{.*}\s*\]', s, re.DOTALL)`: leftmost match start,
greedy extent; returns `match.group(0)`. -/
def searchArrayObj (s : List Char) : Option (List Char) :=
  ((List.range s.length).find? (fun i => (arrayObjMatchAt s i).isSome)).bind
    (fun i => (arrayObjMatchAt s i).map (fun p => (s.take (p + 1)).drop i))

/-- First `]` strictly after `i` (the lazy `.*?` of `r'\[(.*?)\]'`). -/
def firstCloseAfter (s : List Char) (i : Nat) : Option Nat :=
  (List.range s.length).find? (fun e => decide (i < e) && (s.get? e == some ']'))

/-- `re.search(r'\[(.*?)\]', s, re.DOTALL)`: leftmost `[` having any `]`
after it, lazy extent; returns `match.group(1)`. -/
def searchBracketContent (s : List Char) : Option (List Char) :=
  ((List.range s.length).find? (fun i =>
      (s.get? i == some '[') && (firstCloseAfter s i).isSome)).bind
    (fun i => (firstCloseAfter s i).map (fun e => (s.take e).drop (i + 1)))

/-- `parse_ai_response` (src/utils/network.py lines 173-213): strict parse,
then the bracketed-array-of-objects regex, then the loose bracket regex
re-wrapped in brackets; every failure is caught, and the fallback is the
empty array — the function is total, never propagating an exception. -/
def parseAiResponse (s : List Char) : Json :=
  match jsonLoads s with
  | some v => v
  | none =>
    match (searchArrayObj s).bind jsonLoads with
    | some v => v
    | none =>
      match (searchBracketContent s).bind
          (fun content => jsonLoads ('[' :: (content ++ [']']))) with
      | some v => v
      | none => Json.arr []

/-! ## Hybrid search combination (src/src/search_documents.py lines 562-611)

`tfidf_search`, `bm25_search` and `keyword_search` depend on the external
tokenizer and fitted models; `hybrid_search` receives their result dicts
(`dict(self.tfidf_search(query, intermediate_k))` etc.) as association
lists, and the theorems quantify over them. -/

/-- `results.get(idx, 0)` on a score dict. -/
def lookupScore (m : List (Nat × ℚ)) (i : Nat) : ℚ :=
  ((m.find? (fun p => p.1 = i)).map (fun p => p.2)).getD 0

/-- `max(results.values()) if results else 1.0` (lines 588-590). -/
def listMaxD : List ℚ → ℚ
  | [] => 1
  | x :: xs => xs.foldl pyMax x

/-- `score / max_score if max_score > 0 else 0` (lines 595-597). -/
def normScore (m : List (Nat × ℚ)) (maxv : ℚ) (i : Nat) : ℚ :=
  if 0 < maxv then lookupScore m i / maxv else 0

/-- The descending-by-score order of
`sorted(..., key=lambda x: x[1], reverse=True)`. -/
def scoreDescOrder (a b : Nat × ℚ) : Prop := b.2 ≤ a.2

instance : DecidableRel scoreDescOrder :=
  fun a b => inferInstanceAs (Decidable (b.2 ≤ a.2))

instance : IsTotal (Nat × ℚ) scoreDescOrder := ⟨fun a b => le_total b.2 a.2⟩

instance : IsTrans (Nat × ℚ) scoreDescOrder :=
  ⟨fun _ _ _ h1 h2 => le_trans h2 h1⟩

/-- Python `list.sort(key=score, reverse=True)`: a stable descending
sort. -/
def sortDescQ (l : List (Nat × ℚ)) : List (Nat × ℚ) :=
  List.insertionSort scoreDescOrder l

/-- `DocumentSearcher.hybrid_search` (src/src/search_documents.py lines
562-611) given the three constituent result dicts: union the indices,
normalize each constituent by its own maximum, combine with the given
weights, keep positive scores, sort descending, truncate to `top_k`. -/
def hybridSearch (tfidfResults bm25Results keywordResults : List (Nat × ℚ))
    (topK : Nat) (tfidfWeight bm25Weight keywordWeight : ℚ) : List (Nat × ℚ) :=
  let allIndices := (tfidfResults.map (fun p => p.1) ++
    bm25Results.map (fun p => p.1) ++ keywordResults.map (fun p => p.1)).dedup
  if allIndices = [] then []
  else
    let maxTfidf := listMaxD (tfidfResults.map (fun p => p.2))
    let maxBm25 := listMaxD (bm25Results.map (fun p => p.2))
    let maxKeyword := listMaxD (keywordResults.map (fun p => p.2))
    let scored := allIndices.filterMap (fun idx =>
      let hybridScore := tfidfWeight * normScore tfidfResults maxTfidf idx +
        bm25Weight * normScore bm25Results maxBm25 idx +
        keywordWeight * normScore keywordResults maxKeyword idx
      if 0 < hybridScore then some (idx, hybridScore) else none)
    (sortDescQ scored).take topK

/-! ## Top-level search (src/src/search_documents.py lines 613-728)

The selected per-method retrieval (`tfidf_search`, `bm25_search`,
`keyword_search`, `hybrid_search`, …) depends on the external tokenizer
and fitted models; `searchTop` receives it as `methodFn`, where
`methodFn q` stands for `self.<method>_search(q, min(top_k * 2, 20))` for
the chosen method.  The periodic auto-update preamble
(`_check_database_update`) is wall-clock/file-system driven and outside
the embedding; `searchTop` models one call on the searcher state it
leaves behind. -/

/-- Python `str.__contains__` (`word in query`). -/
def containsSub : List Char → List Char → Bool
  | [], pat => decide (pat = [])
  | c :: rest, pat => pat.isPrefixOf (c :: rest) || containsSub rest pat

/-- Python `str.replace(pat, rep)`: replace every non-overlapping
occurrence left to right (our patterns are never empty). -/
def replaceSub (pat rep : List Char) : List Char → List Char
  | [] => []
  | c :: rest =>
    if pat ≠ [] ∧ pat.isPrefixOf (c :: rest) then
      rep ++ replaceSub pat rep (rest.drop (pat.length - 1))
    else c :: replaceSub pat rep rest
termination_by s => s.length
decreasing_by
  · have := List.length_drop (pat.length - 1) rest
    simp only [List.length_cons]
    omega
  · simp

/-- The synonym dictionary of `expand_query` (src/src/search_documents.py
lines 440-450), in insertion order. -/
def synonymsTable : List (List Char × List (List Char)) :=
  [("财运".toList, ["财富".toList, "金钱".toList]),
   ("事业".toList, ["工作".toList, "职业".toList]),
   ("感情".toList, ["爱情".toList, "婚姻".toList]),
   ("健康".toList, ["身体".toList, "疾病".toList]),
   ("学业".toList, ["考试".toList, "学习".toList]),
   ("出行".toList, ["旅行".toList, "远行".toList]),
   ("世爻".toList, ["自己".toList]),
   ("应爻".toList, ["对方".toList]),
   ("用神".toList, ["所求之神".toList])]

/-- The `for word, syns in synonyms.items()` loop of `expand_query`
(lines 453-457): substitute the first synonym of the first matching
entry, then stop. -/
def findSynExpansion (q : List Char) :
    List (List Char × List (List Char)) → List (List Char)
  | [] => []
  | (w, syns) :: rest =>
    if containsSub q w then [replaceSub w (syns.headD []) q]
    else findSynExpansion q rest

/-- `DocumentSearcher.expand_query` (lines 432-459). -/
def expandQuery (q : List Char) : List (List Char) :=
  if q.length < 2 then [q]
  else ([q] ++ findSynExpansion q synonymsTable).take 3

/-- The five search arguments, which together form the query-cache key
(line 633). -/
structure SearchArgs where
  query : List Char
  method : List Char
  topK : Nat
  threshold : ℚ
  useQueryExpansion : Bool
deriving DecidableEq

/-- One formatted hit (lines 693-700).  `metadata = some ()` embeds the
presence of the (always empty) `'metadata'` key; the compressed cache
entries drop the key (`none`). -/
structure FormattedResult where
  chunkId : Nat
  content : List Char
  sourceFile : List Char
  similarityScore : ℚ
  keywords : List (List Char)
  metadata : Option Unit
deriving DecidableEq

/-- The searcher state touched by `search`: the loaded chunks and the
insertion-ordered query cache. -/
structure SearcherState where
  chunks : List DocumentChunk
  queryCache : List (SearchArgs × List FormattedResult)
deriving DecidableEq

/-- `self.cache_size = 300` (line 123). -/
def cacheSize : Nat := 300

/-- Python `dict` lookup on the query cache. -/
def lookupCache (cache : List (SearchArgs × List FormattedResult))
    (key : SearchArgs) : Option (List FormattedResult) :=
  ((cache.find? (fun p => p.1 = key)).map (fun p => p.2))

/-- Python `round(x, 4)`: round half to even at the fourth decimal. -/
def roundHalfEven (x : ℚ) : ℤ :=
  let f := Rat.floor x
  let r := x - mkRat f 1
  if r < mkRat 1 2 then f
  else if mkRat 1 2 < r then f + 1
  else if f % 2 = 0 then f else f + 1

/-- `round(similarity_score, 4)` as an exact rational. -/
def pyRound4 (x : ℚ) : ℚ := mkRat (roundHalfEven (x * mkRat 10000 1)) 10000

/-- The cache compression of `search` (lines 713-723): truncate content
beyond 200 characters with an ellipsis, round the score to 4 decimals,
keep 2 keywords, drop the `metadata` key. -/
def compressResult (r : FormattedResult) : FormattedResult :=
  { chunkId := r.chunkId
    content := if 200 < r.content.length then r.content.take 200 ++ "...".toList
      else r.content
    sourceFile := r.sourceFile
    similarityScore := pyRound4 r.similarityScore
    keywords := r.keywords.take 2
    metadata := none }

/-- `all_results[idx] = max(all_results[idx], score)` or insertion at the
end, preserving dict insertion order (lines 666-672). -/
def updateAssoc (acc : List (Nat × ℚ)) (i : Nat) (s : ℚ) : List (Nat × ℚ) :=
  match acc with
  | [] => [(i, s)]
  | (j, t) :: rest =>
    if j = i then (j, pyMax t s) :: rest else (j, t) :: updateAssoc rest i s

/-- Merge one query variant's results into the accumulator, skipping
out-of-range indices (lines 665-672). -/
def mergeResults (chunksLen : Nat) (acc : List (Nat × ℚ)) :
    List (Nat × ℚ) → List (Nat × ℚ)
  | [] => acc
  | p :: rest =>
    mergeResults chunksLen
      (if p.1 < chunksLen then updateAssoc acc p.1 p.2 else acc) rest

/-- The query-variant loop of `search` (lines 648-676) with its early
exit at `top_k * 3` accumulated results. -/
def runQueries (chunksLen topK : Nat) (methodFn : List Char → List (Nat × ℚ)) :
    List (List Char) → List (Nat × ℚ) → List (Nat × ℚ)
  | [], acc => acc
  | q :: rest, acc =>
    if topK * 3 ≤ (mergeResults chunksLen acc (methodFn q)).length then
      mergeResults chunksLen acc (methodFn q)
    else runQueries chunksLen topK methodFn rest (mergeResults chunksLen acc (methodFn q))

/-- Formatting of one surviving hit (lines 687-701), with the
bounds-check skip. -/
def formatHit (chunks : List DocumentChunk) (p : Nat × ℚ) :
    Option FormattedResult :=
  match chunks.get? p.1 with
  | none => none
  | some c => some ⟨p.1, c.content, c.sourceFile, p.2, c.keywords.take 3, some ()⟩

/-- The recognized `search_method` values (lines 650-663). -/
def validMethod (m : List Char) : Bool :=
  m = "tfidf".toList || m = "bm25".toList || m = "keyword".toList ||
    m = "hybrid".toList || m = "vector".toList || m = "semantic_hybrid".toList

/-- The query-variant list of `search` (lines 639-644). -/
def searchVariants (query : List Char) (useQE : Bool) : List (List Char) :=
  if useQE ∧ 2 < query.length then
    let expanded := expandQuery query
    if 1 < expanded.length then expanded else [query]
  else [query]

/-- The compute path of `search` on a cache miss with a recognized
method (lines 639-728): variant loop, threshold filter, descending
sort, `top_k` truncation, formatting, eviction of the oldest third of a
full cache, caching of the compressed results. -/
def searchCompute (methodFn : List Char → List (Nat × ℚ)) (st : SearcherState)
    (query method : List Char) (topK : Nat) (threshold : ℚ) (useQE : Bool) :
    List FormattedResult × SearcherState :=
  let key : SearchArgs := ⟨query, method, topK, threshold, useQE⟩
  let allResults := runQueries st.chunks.length topK methodFn
    (searchVariants query useQE) []
  let filtered := allResults.filter (fun p => decide (threshold ≤ p.2))
  let ranked := sortDescQ filtered
  let formatted := (ranked.take topK).filterMap (formatHit st.chunks)
  let cacheEvicted :=
    if cacheSize ≤ st.queryCache.length then st.queryCache.drop (cacheSize / 3)
    else st.queryCache
  let newCache := cacheEvicted ++ [(key, formatted.map compressResult)]
  (formatted, { chunks := st.chunks, queryCache := newCache })

/-- `DocumentSearcher.search` (src/src/search_documents.py lines
613-728): empty-query short-circuit, cache hit returning the stored
(compressed) entries, the `ValueError` for an unrecognized method, and
the compute path. -/
def searchTop (methodFn : List Char → List (Nat × ℚ)) (st : SearcherState)
    (query0 method : List Char) (topK : Nat) (threshold : ℚ) (useQE : Bool) :
    Except (List Char) (List FormattedResult × SearcherState) :=
  if pyStrip query0 = [] then Except.ok ([], st)
  else
    match lookupCache st.queryCache
        ⟨pyStrip query0, method, topK, threshold, useQE⟩ with
    | some cached => Except.ok (cached, st)
    | none =>
      if ¬ validMethod method then Except.error "不支持的搜索方法".toList
      else
        Except.ok
          (searchCompute methodFn st (pyStrip query0) method topK threshold useQE)

/-! ## A concrete two-chunk searcher instance

Used to exercise `searchTop` on explicit inputs: a database of two
chunks, with the hybrid method driven by a TF-IDF scorer that returns
0.12341 for chunk 0 and 1.0 for chunk 1 (and BM25/keyword scorers that
return nothing), at the capped intermediate `min(top_k * 2, 20)`. -/

def c5Chunk0 : DocumentChunk :=
  ⟨"chunk_0".toList, "内容零".toList, "a.txt".toList, []⟩

def c5Chunk1 : DocumentChunk :=
  ⟨"chunk_1".toList, "内容一".toList, "b.txt".toList, []⟩

def c5MethodFn : List Char → List (Nat × ℚ) := fun _ =>
  hybridSearch [(0, mkRat 12341 1), (1, mkRat 100000 1)] [] []
    (min (5 * 2) 20) (mkRat 3 10) (mkRat 4 10) (mkRat 3 10)

/-- A threshold equal to chunk 0's exact hybrid score
`0.3 · 12341/100000 = 0.037023`. -/
def c5Threshold : ℚ := mkRat 37023 1000000

def c5State0 : SearcherState := ⟨[c5Chunk0, c5Chunk1], []⟩

/-- The searcher state after the first (cache-missing) call. -/
def c5State1 : SearcherState :=
  match searchTop c5MethodFn c5State0 "ab".toList "hybrid".toList 5
      c5Threshold false with
  | Except.ok p => p.2
  | Except.error _ => c5State0

/-! ## Lemmas about the chunker -/

theorem ratAbs_eq_abs (x : ℚ) : ratAbs x = |x| := by
  unfold ratAbs
  by_cases h : x < 0
  · rw [if_pos h, abs_of_neg h]
  · rw [if_neg h, abs_of_nonneg (le_of_not_lt h)]

theorem dropWhile_length_le (p : Char → Bool) (l : List Char) :
    (l.dropWhile p).length ≤ l.length := by
  induction l with
  | nil => simp
  | cons a as ih =>
    by_cases h : p a
    · rw [List.dropWhile_cons, if_pos h]; exact le_trans ih (Nat.le_succ _)
    · rw [List.dropWhile_cons, if_neg h]

theorem pyStrip_length_le (s : List Char) : (pyStrip s).length ≤ s.length := by
  unfold pyStrip
  calc ((s.dropWhile Char.isWhitespace).reverse.dropWhile Char.isWhitespace).reverse.length
      = ((s.dropWhile Char.isWhitespace).reverse.dropWhile Char.isWhitespace).length := by
        simp
    _ ≤ (s.dropWhile Char.isWhitespace).reverse.length := dropWhile_length_le _ _
    _ = (s.dropWhile Char.isWhitespace).length := by simp
    _ ≤ s.length := dropWhile_length_le _ _

theorem hardSlice_length_le (n : Nat) (s : List Char) :
    ∀ c ∈ hardSlice n s, c.length ≤ n := by
  induction s using hardSlice.induct n with
  | case1 s h =>
    rw [hardSlice, dif_pos h]
    intro c hc
    exact absurd hc (List.not_mem_nil c)
  | case2 s h ih =>
    rw [hardSlice, dif_neg h]
    intro c hc
    rcases List.mem_cons.mp hc with hc | hc
    · subst hc; simpa using List.length_take_le n s
    · exact ih c hc

theorem chunkSubLoop_bound (n : Nat) (hn : 0 < n) :
    ∀ (subs chunks : List (List Char)) (current : List Char),
    (∀ c ∈ chunks, c.length ≤ n + 1) → current.length ≤ n + 1 →
    (∀ c ∈ (chunkSubLoop n subs chunks current).1, c.length ≤ n + 1) ∧
      (chunkSubLoop n subs chunks current).2.length ≤ n + 1 := by
  intro subs
  induction subs with
  | nil => intro chunks current hch hcur; exact ⟨hch, hcur⟩
  | cons sub rest ih =>
    intro chunks current hch hcur
    rw [chunkSubLoop]
    by_cases hfit : current.length + sub.length ≤ n
    · rw [if_pos hfit]
      refine ih chunks (current ++ sub ++ ['，']) hch ?_
      simp only [List.length_append, List.length_cons, List.length_nil]
      omega
    · rw [if_neg hfit]
      have hch1 : ∀ c ∈ (if current = [] then chunks
          else chunks ++ [pyStrip current]), c.length ≤ n + 1 := by
        by_cases hcurnil : current = []
        · rw [if_pos hcurnil]; exact hch
        · rw [if_neg hcurnil]
          intro c hc
          rcases List.mem_append.mp hc with hc | hc
          · exact hch c hc
          · rcases List.mem_singleton.mp hc with rfl
            exact le_trans (pyStrip_length_le current) hcur
      by_cases hlong : n < sub.length
      · rw [if_pos hlong]
        refine ih _ [] ?_ (by simp)
        intro c hc
        rcases List.mem_append.mp hc with hc | hc
        · exact hch1 c hc
        · exact le_trans (hardSlice_length_le n sub c hc) (Nat.le_succ n)
      · rw [if_neg hlong]
        refine ih _ (sub ++ ['，']) hch1 ?_
        simp only [List.length_append, List.length_cons, List.length_nil]
        omega

theorem chunkSentLoop_bound (n : Nat) (hn : 0 < n) :
    ∀ (sents chunks : List (List Char)) (current : List Char),
    (∀ c ∈ chunks, c.length ≤ n + 1) → current.length ≤ n + 1 →
    (∀ c ∈ (chunkSentLoop n sents chunks current).1, c.length ≤ n + 1) ∧
      (chunkSentLoop n sents chunks current).2.length ≤ n + 1 := by
  intro sents
  induction sents with
  | nil => intro chunks current hch hcur; exact ⟨hch, hcur⟩
  | cons sent rest ih =>
    intro chunks current hch hcur
    rw [chunkSentLoop]
    have hch1 : ∀ c ∈ (if current = [] then chunks
        else chunks ++ [pyStrip current]), c.length ≤ n + 1 := by
      by_cases hcurnil : current = []
      · rw [if_pos hcurnil]; exact hch
      · rw [if_neg hcurnil]
        intro c hc
        rcases List.mem_append.mp hc with hc | hc
        · exact hch c hc
        · rcases List.mem_singleton.mp hc with rfl
          exact le_trans (pyStrip_length_le current) hcur
    by_cases hlong : n < sent.length
    · rw [if_pos hlong]
      have hsub := chunkSubLoop_bound n hn
        (((splitOnPred isMinorPunct sent).map pyStrip).filter (fun s => s ≠ []))
        (if current = [] then chunks else chunks ++ [pyStrip current]) []
        hch1 (by simp)
      exact ih _ _ hsub.1 hsub.2
    · rw [if_neg hlong]
      by_cases hfit : current.length + sent.length ≤ n
      · rw [if_pos hfit]
        refine ih chunks (current ++ sent ++ ['。']) hch ?_
        simp only [List.length_append, List.length_cons, List.length_nil]
        omega
      · rw [if_neg hfit]
        refine ih _ (sent ++ ['。']) hch1 ?_
        simp only [List.length_append, List.length_cons, List.length_nil]
        omega

/-- Claim C1 (amended): for every input text and every chunk size
`0 < n`, every chunk produced by `chunk_text` has length at most
`n + 1` — the extra character being the 。 or ， the accumulator appends
after checking the length budget.  The bound `n` itself claimed by the
spec is refuted by `C1_counterexample` below. -/
theorem C1_chunk_length_le_size_succ (n : Nat) (text : List Char) (hn : 0 < n) :
    ∀ c ∈ chunkText n text, c.length ≤ n + 1 := by
  intro c hc
  unfold chunkText at hc
  set sents := ((splitOnPred isMajorPunct text).map pyStrip).filter (fun s => s ≠ []) with hs
  have h := chunkSentLoop_bound n hn sents [] [] (by simp) (by simp)
  by_cases hnil : (chunkSentLoop n sents [] []).2 = []
  · rw [if_pos hnil] at hc
    exact h.1 c hc
  · rw [if_neg hnil] at hc
    rcases List.mem_append.mp hc with hc | hc
    · exact h.1 c hc
    · rcases List.mem_singleton.mp hc with rfl
      exact le_trans (pyStrip_length_le _) h.2

/-- Witness for `C1_chunk_length_le_size_succ` at `n = 2`, text `"ab"`. -/
theorem C1_witness :
    0 < 2 ∧ ∀ c ∈ chunkText 2 ['a', 'b'], c.length ≤ 2 + 1 :=
  ⟨by decide, fun c hc => C1_chunk_length_le_size_succ 2 ['a', 'b'] (by decide) c hc⟩

/-- Counterexample to claim C1 as stated: with `chunk_size = 2` the text
`"ab"` produces the single chunk `"ab。"` of length 3 > 2, because the
accumulator appends the sentence punctuation after checking the budget. -/
theorem C1_counterexample :
    chunkText 2 ['a', 'b'] = [['a', 'b', '。']] ∧
      ¬ ∀ c ∈ chunkText 2 ['a', 'b'], c.length ≤ 2 := by
  constructor
  · decide
  · decide

/-! ## Claim C2: change-detection equality -/

/-- Claim C2 (amended): only the incremental updater's `FileInfo.__eq__`
uses the 1-second modification-time tolerance (with exact size and hash
match); the file monitor's `check_changes` classifies a cached file as
modified on any difference in size, mtime or hash, the mtime compared
exactly.  The symmetric claim is refuted by `C2_counterexample`. -/
theorem C2_tolerance_only_in_updater :
    (∀ a b : FileInfo, fileInfoEq a b = true ↔
      (a.size = b.size ∧ a.hash = b.hash ∧ |a.mtime - b.mtime| < 1)) ∧
    (∀ cur cached : FileEntry,
      (monitorEntryDiffers cur cached = false ↔
        (cur.size = cached.size ∧ cur.mtime = cached.mtime ∧ cur.hash = cached.hash)) ∧
      ∀ name : List Char,
        (checkChanges [(name, cur)] (some [(name, cached)])).2.1.modified =
          (if monitorEntryDiffers cur cached then [name] else [])) := by
  refine ⟨?_, ?_⟩
  · intro a b
    simp only [fileInfoEq, Bool.and_eq_true, decide_eq_true_eq, ratAbs_eq_abs]
    tauto
  · intro cur cached
    constructor
    · simp only [monitorEntryDiffers, Bool.or_eq_false_iff, decide_eq_false_iff_not,
        not_not]
      tauto
    · intro name
      simp only [checkChanges, lookupAssoc, List.find?, List.filter]
      by_cases h : monitorEntryDiffers cur cached
      · simp [h]
      · simp [h]

/-- Counterexample to claim C2 as stated: a file whose size and hash are
unchanged and whose mtime moved by 0.5 s is "equal" for the incremental
updater but is reported as modified by the file monitor (strict `!=` on
mtime at src/utils/file_monitor.py line 113). -/
theorem C2_counterexample :
    fileInfoEq ⟨['p'], 7, 0, ['h'], 0⟩ ⟨['p'], 7, mkRat 1 2, ['h'], 0⟩ = true ∧
    (checkChanges [(['A'], ⟨7, mkRat 1 2, ['h']⟩)]
        (some [(['A'], ⟨7, 0, ['h']⟩)])).2.1.modified = [['A']] ∧
    (checkChanges [(['A'], ⟨7, mkRat 1 2, ['h']⟩)]
        (some [(['A'], ⟨7, 0, ['h']⟩)])).1 = true := by
  refine ⟨by decide, by decide, by decide⟩

/-! ## Claim C6: monitor add/modify/delete scenario -/

/-- Claim C6: from a cached baseline of `A.txt` and `B.txt`, after adding
`C.txt`, modifying `A.txt` (different size, mtime and hash) and deleting
`B.txt`, `check_changes` reports exactly those sets with
`has_changes = True` and rewrites the cache, so a further call with no
file-system change reports `has_changes = False`. -/
theorem C6_monitor_scenario :
    (checkChanges
        [("A.txt".toList, ⟨5, mkRat 200 1, ['h', '9']⟩), ("C.txt".toList, ⟨6, mkRat 300 1, ['h', '3']⟩)]
        (some [("A.txt".toList, ⟨3, mkRat 100 1, ['h', '1']⟩),
               ("B.txt".toList, ⟨4, mkRat 100 1, ['h', '2']⟩)])) =
      (true,
        ⟨["C.txt".toList], ["A.txt".toList], ["B.txt".toList], 2⟩,
        some [("A.txt".toList, ⟨5, mkRat 200 1, ['h', '9']⟩),
              ("C.txt".toList, ⟨6, mkRat 300 1, ['h', '3']⟩)]) ∧
    (checkChanges
        [("A.txt".toList, ⟨5, mkRat 200 1, ['h', '9']⟩), ("C.txt".toList, ⟨6, mkRat 300 1, ['h', '3']⟩)]
        (some [("A.txt".toList, ⟨5, mkRat 200 1, ['h', '9']⟩),
               ("C.txt".toList, ⟨6, mkRat 300 1, ['h', '3']⟩)])).1 = false := by
  refine ⟨by decide, by decide⟩

/-! ## Claim C3: database invariants after build / incremental update -/

/-- Claim C3: after every successful full build and after every
successful incremental update, the serialized database satisfies
`total_chunks == len(chunks)` and every chunk's `source_file` is a member
of `source_files`. -/
theorem C3_database_invariants :
    (∀ (ek : List Char → List (List Char)) (folder : List (List Char × List Char))
        (db : Database), buildDatabase ek folder = Except.ok db →
        db.totalChunks = db.chunks.length ∧
          ∀ c ∈ db.chunks, c.sourceFile ∈ db.sourceFiles) ∧
    (∀ (ek : List Char → List (List Char)) (readText : List Char → List Char)
        (db0 : Database) (newFiles modifiedFiles deletedFiles : List (List Char))
        (db2 : Database),
        updateDatabaseIncremental ek readText db0 newFiles modifiedFiles deletedFiles =
          some db2 →
        db2.totalChunks = db2.chunks.length ∧
          ∀ c ∈ db2.chunks, c.sourceFile ∈ db2.sourceFiles) := by
  constructor
  · intro ek folder db h
    unfold buildDatabase at h
    by_cases hempty : (scanDocsGo ek folder 0).isEmpty
    · rw [if_pos hempty] at h
      exact absurd h (by simp)
    · rw [if_neg hempty] at h
      have hdb := (Except.ok.inj h).symm
      subst hdb
      refine ⟨rfl, ?_⟩
      intro c hc
      exact List.mem_dedup.mpr (List.mem_map_of_mem _ hc)
  · intro ek readText db0 newFiles modifiedFiles deletedFiles db2 h
    unfold updateDatabaseIncremental at h
    by_cases hempty : newFiles = [] ∧ modifiedFiles = [] ∧ deletedFiles = []
    · rw [if_pos hempty] at h
      exact absurd h (by simp)
    · rw [if_neg hempty] at h
      have hdb := (Option.some.inj h).symm
      subst hdb
      refine ⟨rfl, ?_⟩
      intro c hc
      exact List.mem_dedup.mpr (List.mem_map_of_mem _ hc)

/-- Witness for `C3_database_invariants`: a one-file build and a one-file
incremental addition on top of it. -/
theorem C3_witness :
    ((Database.mk [⟨"chunk_0".toList, "某事。".toList, "a.txt".toList, []⟩] 1
        ["a.txt".toList]).totalChunks =
      (Database.mk [⟨"chunk_0".toList, "某事。".toList, "a.txt".toList, []⟩] 1
        ["a.txt".toList]).chunks.length ∧
      ∀ c ∈ (Database.mk [⟨"chunk_0".toList, "某事。".toList, "a.txt".toList, []⟩] 1
        ["a.txt".toList]).chunks,
        c.sourceFile ∈ (Database.mk [⟨"chunk_0".toList, "某事。".toList, "a.txt".toList, []⟩] 1
          ["a.txt".toList]).sourceFiles) ∧
    ((Database.mk
        [⟨"chunk_0".toList, "某事。".toList, "a.txt".toList, []⟩,
         ⟨"b.txt_0".toList, "好。".toList, "b.txt".toList, []⟩] 2
        ["a.txt".toList, "b.txt".toList]).totalChunks =
      (Database.mk
        [⟨"chunk_0".toList, "某事。".toList, "a.txt".toList, []⟩,
         ⟨"b.txt_0".toList, "好。".toList, "b.txt".toList, []⟩] 2
        ["a.txt".toList, "b.txt".toList]).chunks.length ∧
      ∀ c ∈ (Database.mk
        [⟨"chunk_0".toList, "某事。".toList, "a.txt".toList, []⟩,
         ⟨"b.txt_0".toList, "好。".toList, "b.txt".toList, []⟩] 2
        ["a.txt".toList, "b.txt".toList]).chunks,
        c.sourceFile ∈ (Database.mk
          [⟨"chunk_0".toList, "某事。".toList, "a.txt".toList, []⟩,
           ⟨"b.txt_0".toList, "好。".toList, "b.txt".toList, []⟩] 2
          ["a.txt".toList, "b.txt".toList]).sourceFiles) :=
  ⟨C3_database_invariants.1 (fun _ => []) [("a.txt".toList, "某事。".toList)]
      (Database.mk [⟨"chunk_0".toList, "某事。".toList, "a.txt".toList, []⟩] 1
        ["a.txt".toList]) (by rfl),
   C3_database_invariants.2 (fun _ => []) (fun _ => "好。".toList)
      (Database.mk [⟨"chunk_0".toList, "某事。".toList, "a.txt".toList, []⟩] 1
        ["a.txt".toList]) ["b.txt".toList] [] []
      (Database.mk
        [⟨"chunk_0".toList, "某事。".toList, "a.txt".toList, []⟩,
         ⟨"b.txt_0".toList, "好。".toList, "b.txt".toList, []⟩] 2
        ["a.txt".toList, "b.txt".toList]) (by rfl)⟩

/-! ## Claim C7: tolerant AI-reply parsing -/

/-- Claim C7: `parse_ai_response` returns the parsed list for a strict
JSON array string and for the same array embedded in surrounding prose,
and returns the empty list — it is a total function, every parse failure
being caught — for malformed text containing no bracket pair. -/
theorem C7_parse_ai_response_tolerance :
    parseAiResponse
        "[\x7b\"方面\": \"事业\"\x7d, \x7b\"方面\": \"财运\"\x7d]".toList =
      Json.arr [Json.obj [("方面".toList, Json.str "事业".toList)],
        Json.obj [("方面".toList, Json.str "财运".toList)]] ∧
    parseAiResponse
        "好的，以下是分析结果：[\x7b\"方面\": \"事业\"\x7d, \x7b\"方面\": \"财运\"\x7d]，希望对您有帮助。".toList =
      Json.arr [Json.obj [("方面".toList, Json.str "事业".toList)],
        Json.obj [("方面".toList, Json.str "财运".toList)]] ∧
    parseAiResponse "完全无法解析的回复，没有方括号。".toList = Json.arr [] :=
  ⟨rfl, rfl, rfl⟩

/-! ## Claim C4: hybrid scores lie in the unit interval -/

theorem pyMax_le_left (a b : ℚ) : a ≤ pyMax a b := by
  unfold pyMax
  by_cases h : b ≤ a
  · rw [if_pos h]
  · rw [if_neg h]
    exact le_of_lt (lt_of_not_le h)

theorem pyMax_le_right (a b : ℚ) : b ≤ pyMax a b := by
  unfold pyMax
  by_cases h : b ≤ a
  · rw [if_pos h]; exact h
  · rw [if_neg h]

theorem foldl_pyMax_init (l : List ℚ) : ∀ a : ℚ, a ≤ l.foldl pyMax a := by
  induction l with
  | nil => intro a; exact le_refl a
  | cons x xs ih =>
    intro a
    exact le_trans (pyMax_le_left a x) (ih (pyMax a x))

theorem foldl_pyMax_mem (l : List ℚ) :
    ∀ (a x : ℚ), x ∈ l → x ≤ l.foldl pyMax a := by
  induction l with
  | nil => intro a x hx; exact absurd hx (List.not_mem_nil x)
  | cons y ys ih =>
    intro a x hx
    rcases List.mem_cons.mp hx with hx | hx
    · subst hx
      exact le_trans (pyMax_le_right a x) (foldl_pyMax_init ys (pyMax a x))
    · exact ih (pyMax a y) x hx

theorem le_listMaxD (l : List ℚ) (x : ℚ) (hx : x ∈ l) : x ≤ listMaxD l := by
  cases l with
  | nil => exact absurd hx (List.not_mem_nil x)
  | cons y ys =>
    rcases List.mem_cons.mp hx with hx | hx
    · subst hx; exact foldl_pyMax_init ys x
    · exact foldl_pyMax_mem ys y x hx

theorem normScore_le_one (m : List (Nat × ℚ)) (i : Nat) :
    normScore m (listMaxD (m.map (fun p => p.2))) i ≤ 1 := by
  unfold normScore
  by_cases h : 0 < listMaxD (m.map (fun p => p.2))
  · rw [if_pos h]
    rw [div_le_one h]
    unfold lookupScore
    cases hf : m.find? (fun p => p.1 = i) with
    | none => simpa using le_of_lt h
    | some q =>
      show q.2 ≤ listMaxD (m.map (fun p => p.2))
      exact le_listMaxD _ _ (List.mem_map_of_mem _ (List.mem_of_find?_eq_some hf))
  · rw [if_neg h]
    exact zero_le_one

theorem weighted_combo_le_one (t b k : List (Nat × ℚ)) (idx : Nat) :
    mkRat 3 10 * normScore t (listMaxD (t.map (fun p => p.2))) idx +
      mkRat 4 10 * normScore b (listMaxD (b.map (fun p => p.2))) idx +
      mkRat 3 10 * normScore k (listMaxD (k.map (fun p => p.2))) idx ≤ 1 := by
  have h1 := normScore_le_one t idx
  have h2 := normScore_le_one b idx
  have h3 := normScore_le_one k idx
  have w1 : (0 : ℚ) ≤ mkRat 3 10 := by decide
  have w2 : (0 : ℚ) ≤ mkRat 4 10 := by decide
  have e1 := mul_le_mul_of_nonneg_left h1 w1
  have e2 := mul_le_mul_of_nonneg_left h2 w2
  have e3 := mul_le_mul_of_nonneg_left h3 w1
  have esum : mkRat 3 10 * 1 + mkRat 4 10 * 1 + mkRat 3 10 * 1 = 1 := by decide
  linarith

/-- Claim C4: with the default weights 0.3/0.4/0.3, every score returned
by `hybrid_search` lies in `[0, 1]`, whatever the three constituent
methods returned for the query, because each constituent is divided by
its own maximum before the weighted combination. -/
theorem C4_hybrid_scores_bounded (tfidfResults bm25Results keywordResults :
    List (Nat × ℚ)) (topK : Nat) :
    ∀ p ∈ hybridSearch tfidfResults bm25Results keywordResults topK
        (mkRat 3 10) (mkRat 4 10) (mkRat 3 10),
      0 ≤ p.2 ∧ p.2 ≤ 1 := by
  intro p hp
  simp only [hybridSearch] at hp
  split at hp
  · exact absurd hp (List.not_mem_nil p)
  · have hp2 : p ∈ sortDescQ _ := List.take_subset _ _ hp
    have hp3 := (List.perm_insertionSort scoreDescOrder _).subset hp2
    rcases List.mem_filterMap.mp hp3 with ⟨idx, _, heq⟩
    by_cases hpos : 0 < mkRat 3 10 *
        normScore tfidfResults (listMaxD (tfidfResults.map (fun p => p.2))) idx +
      mkRat 4 10 * normScore bm25Results (listMaxD (bm25Results.map (fun p => p.2))) idx +
      mkRat 3 10 * normScore keywordResults (listMaxD (keywordResults.map (fun p => p.2))) idx
    · rw [if_pos hpos] at heq
      cases Option.some.inj heq
      exact ⟨le_of_lt hpos,
        weighted_combo_le_one tfidfResults bm25Results keywordResults idx⟩
    · rw [if_neg hpos] at heq
      exact absurd heq (by simp)

/-- Witness for `C4_hybrid_scores_bounded`: a one-entry TF-IDF result
normalizes to 1 and yields the hybrid score 0.3. -/
theorem C4_witness :
    ((0, mkRat 3 10) : Nat × ℚ) ∈ hybridSearch [(0, mkRat 1 1)] [] [] 5
        (mkRat 3 10) (mkRat 4 10) (mkRat 3 10) ∧
    (0 ≤ ((0, mkRat 3 10) : Nat × ℚ).2 ∧ ((0, mkRat 3 10) : Nat × ℚ).2 ≤ 1) :=
  ⟨by decide,
   C4_hybrid_scores_bounded [(0, mkRat 1 1)] [] [] 5 (0, mkRat 3 10) (by decide)⟩

/-! ## Lemmas about the top-level search -/

theorem pyMax_le (a b c : ℚ) (ha : a ≤ c) (hb : b ≤ c) : pyMax a b ≤ c := by
  unfold pyMax
  split
  · exact ha
  · exact hb

theorem updateAssoc_self (acc : List (Nat × ℚ)) (i : Nat) (s : ℚ) :
    ∃ v, (i, v) ∈ updateAssoc acc i s ∧ s ≤ v := by
  induction acc with
  | nil => exact ⟨s, by simp [updateAssoc], le_refl s⟩
  | cons p rest ih =>
    obtain ⟨j, t⟩ := p
    by_cases h : j = i
    · subst h
      refine ⟨pyMax t s, ?_, pyMax_le_right t s⟩
      rw [updateAssoc, if_pos rfl]
      exact List.mem_cons_self _ _
    · rcases ih with ⟨v, hv, hsv⟩
      refine ⟨v, ?_, hsv⟩
      rw [updateAssoc, if_neg h]
      exact List.mem_cons_of_mem _ hv

theorem updateAssoc_mono (i2 : Nat) (s : ℚ) :
    ∀ (acc : List (Nat × ℚ)) (i : Nat) (v : ℚ), (i, v) ∈ acc →
      ∃ v2, (i, v2) ∈ updateAssoc acc i2 s ∧ v ≤ v2 := by
  intro acc
  induction acc with
  | nil => intro i v hv; exact absurd hv (List.not_mem_nil _)
  | cons p rest ih =>
    obtain ⟨j, t⟩ := p
    intro i v hv
    by_cases h : j = i2
    · rw [updateAssoc, if_pos h]
      rcases List.mem_cons.mp hv with hv | hv
      · have hi : i = j := (Prod.mk.injEq _ _ _ _ ▸ hv.symm).1.symm
        have ht : v = t := (Prod.mk.injEq _ _ _ _ ▸ hv.symm).2.symm
        subst hi
        subst ht
        exact ⟨pyMax v s, List.mem_cons_self _ _, pyMax_le_left v s⟩
      · exact ⟨v, List.mem_cons_of_mem _ hv, le_refl v⟩
    · rw [updateAssoc, if_neg h]
      rcases List.mem_cons.mp hv with hv | hv
      · exact ⟨v, hv ▸ List.mem_cons_self _ _, le_refl v⟩
      · rcases ih i v hv with ⟨v2, hv2, hle⟩
        exact ⟨v2, List.mem_cons_of_mem _ hv2, hle⟩

theorem updateAssoc_keys_lt (L i : Nat) (s : ℚ) (hi : i < L) :
    ∀ acc : List (Nat × ℚ), (∀ p ∈ acc, p.1 < L) →
      ∀ p ∈ updateAssoc acc i s, p.1 < L := by
  intro acc
  induction acc with
  | nil =>
    intro _ p hp
    rcases List.mem_singleton.mp (by simpa [updateAssoc] using hp) with rfl
    exact hi
  | cons q rest ih =>
    obtain ⟨j, t⟩ := q
    intro hacc p hp
    by_cases h : j = i
    · rw [updateAssoc, if_pos h] at hp
      rcases List.mem_cons.mp hp with hp | hp
      · rw [hp]; exact hacc (j, t) (List.mem_cons_self _ _)
      · exact hacc p (List.mem_cons_of_mem _ hp)
    · rw [updateAssoc, if_neg h] at hp
      rcases List.mem_cons.mp hp with hp | hp
      · rw [hp]; exact hacc (j, t) (List.mem_cons_self _ _)
      · exact ih (fun r hr => hacc r (List.mem_cons_of_mem _ hr)) p hp

theorem updateAssoc_values_le (B : ℚ) (i : Nat) (s : ℚ) (hs : s ≤ B) :
    ∀ acc : List (Nat × ℚ), (∀ p ∈ acc, p.2 ≤ B) →
      ∀ p ∈ updateAssoc acc i s, p.2 ≤ B := by
  intro acc
  induction acc with
  | nil =>
    intro _ p hp
    rcases List.mem_singleton.mp (by simpa [updateAssoc] using hp) with rfl
    exact hs
  | cons q rest ih =>
    obtain ⟨j, t⟩ := q
    intro hacc p hp
    by_cases h : j = i
    · rw [updateAssoc, if_pos h] at hp
      rcases List.mem_cons.mp hp with hp | hp
      · rw [hp]
        exact pyMax_le t s B (hacc (j, t) (List.mem_cons_self _ _)) hs
      · exact hacc p (List.mem_cons_of_mem _ hp)
    · rw [updateAssoc, if_neg h] at hp
      rcases List.mem_cons.mp hp with hp | hp
      · rw [hp]; exact hacc (j, t) (List.mem_cons_self _ _)
      · exact ih (fun r hr => hacc r (List.mem_cons_of_mem _ hr)) p hp

theorem mergeResults_keys_lt (L : Nat) :
    ∀ (results acc : List (Nat × ℚ)), (∀ p ∈ acc, p.1 < L) →
      ∀ p ∈ mergeResults L acc results, p.1 < L := by
  intro results
  induction results with
  | nil => intro acc h p hp; exact h p hp
  | cons q rest ih =>
    intro acc h
    rw [mergeResults]
    by_cases hq : q.1 < L
    · rw [if_pos hq]
      exact ih _ (updateAssoc_keys_lt L q.1 q.2 hq acc h)
    · rw [if_neg hq]
      exact ih _ h

theorem mergeResults_values_le (B : ℚ) (L : Nat) :
    ∀ (results acc : List (Nat × ℚ)), (∀ p ∈ results, p.2 ≤ B) →
      (∀ p ∈ acc, p.2 ≤ B) → ∀ p ∈ mergeResults L acc results, p.2 ≤ B := by
  intro results
  induction results with
  | nil => intro acc _ h p hp; exact h p hp
  | cons q rest ih =>
    intro acc hres h
    rw [mergeResults]
    have hres2 : ∀ p ∈ rest, p.2 ≤ B := fun p hp => hres p (List.mem_cons_of_mem _ hp)
    by_cases hq : q.1 < L
    · rw [if_pos hq]
      exact ih _ hres2
        (updateAssoc_values_le B q.1 q.2 (hres q (List.mem_cons_self _ _)) acc h)
    · rw [if_neg hq]
      exact ih _ hres2 h

theorem mergeResults_mono (L : Nat) :
    ∀ (results acc : List (Nat × ℚ)) (i : Nat) (v : ℚ), (i, v) ∈ acc →
      ∃ v2, (i, v2) ∈ mergeResults L acc results ∧ v ≤ v2 := by
  intro results
  induction results with
  | nil => intro acc i v hv; exact ⟨v, hv, le_refl v⟩
  | cons q rest ih =>
    intro acc i v hv
    rw [mergeResults]
    by_cases hq : q.1 < L
    · rw [if_pos hq]
      rcases updateAssoc_mono q.1 q.2 acc i v hv with ⟨v1, hv1, h1⟩
      rcases ih _ i v1 hv1 with ⟨v2, hv2, h2⟩
      exact ⟨v2, hv2, le_trans h1 h2⟩
    · rw [if_neg hq]
      exact ih _ i v hv

theorem mergeResults_mem (L : Nat) :
    ∀ (results : List (Nat × ℚ)) (p : Nat × ℚ), p ∈ results → p.1 < L →
      ∀ acc, ∃ v2, (p.1, v2) ∈ mergeResults L acc results ∧ p.2 ≤ v2 := by
  intro results
  induction results with
  | nil => intro p hp; exact absurd hp (List.not_mem_nil _)
  | cons q rest ih =>
    intro p hp hlt acc
    rcases List.mem_cons.mp hp with hp | hp
    · subst hp
      rw [mergeResults, if_pos hlt]
      rcases updateAssoc_self acc p.1 p.2 with ⟨v, hv, hsv⟩
      rcases mergeResults_mono L rest _ p.1 v hv with ⟨v2, hv2, h2⟩
      exact ⟨v2, hv2, le_trans hsv h2⟩
    · rw [mergeResults]
      exact ih p hp hlt _

theorem runQueries_keys_lt (L topK : Nat) (methodFn : List Char → List (Nat × ℚ)) :
    ∀ (qs : List (List Char)) (acc : List (Nat × ℚ)), (∀ p ∈ acc, p.1 < L) →
      ∀ p ∈ runQueries L topK methodFn qs acc, p.1 < L := by
  intro qs
  induction qs with
  | nil => intro acc h p hp; exact h p hp
  | cons q rest ih =>
    intro acc h
    rw [runQueries]
    have h2 := mergeResults_keys_lt L (methodFn q) acc h
    split
    · exact h2
    · exact ih _ h2

theorem runQueries_values_le (B : ℚ) (L topK : Nat)
    (methodFn : List Char → List (Nat × ℚ))
    (hm : ∀ q, ∀ p ∈ methodFn q, p.2 ≤ B) :
    ∀ (qs : List (List Char)) (acc : List (Nat × ℚ)), (∀ p ∈ acc, p.2 ≤ B) →
      ∀ p ∈ runQueries L topK methodFn qs acc, p.2 ≤ B := by
  intro qs
  induction qs with
  | nil => intro acc h p hp; exact h p hp
  | cons q rest ih =>
    intro acc h
    rw [runQueries]
    have h2 := mergeResults_values_le B L (methodFn q) acc (hm q) h
    split
    · exact h2
    · exact ih _ h2

theorem runQueries_mono (L topK : Nat) (methodFn : List Char → List (Nat × ℚ)) :
    ∀ (qs : List (List Char)) (acc : List (Nat × ℚ)) (i : Nat) (v : ℚ),
      (i, v) ∈ acc →
      ∃ v2, (i, v2) ∈ runQueries L topK methodFn qs acc ∧ v ≤ v2 := by
  intro qs
  induction qs with
  | nil => intro acc i v hv; exact ⟨v, hv, le_refl v⟩
  | cons q rest ih =>
    intro acc i v hv
    rw [runQueries]
    rcases mergeResults_mono L (methodFn q) acc i v hv with ⟨v1, hv1, h1⟩
    split
    · exact ⟨v1, hv1, h1⟩
    · rcases ih _ i v1 hv1 with ⟨v2, hv2, h2⟩
      exact ⟨v2, hv2, le_trans h1 h2⟩

theorem runQueries_head_mem (L topK : Nat) (methodFn : List Char → List (Nat × ℚ))
    (q : List Char) (qs : List (List Char)) (p : Nat × ℚ)
    (hp : p ∈ methodFn q) (hlt : p.1 < L) :
    ∃ v2, (p.1, v2) ∈ runQueries L topK methodFn (q :: qs) [] ∧ p.2 ≤ v2 := by
  rw [runQueries]
  rcases mergeResults_mem L (methodFn q) p hp hlt [] with ⟨v1, hv1, h1⟩
  split
  · exact ⟨v1, hv1, h1⟩
  · rcases runQueries_mono L topK methodFn qs _ p.1 v1 hv1 with ⟨v2, hv2, h2⟩
    exact ⟨v2, hv2, le_trans h1 h2⟩

theorem searchVariants_head (query : List Char) (useQE : Bool) :
    ∃ qs, searchVariants query useQE = query :: qs := by
  simp only [searchVariants, expandQuery]
  split_ifs <;>
    first
      | exact ⟨[], rfl⟩
      | exact ⟨(findSynExpansion query synonymsTable).take 2, rfl⟩

theorem searchTop_miss_eval (methodFn : List Char → List (Nat × ℚ))
    (st : SearcherState) (query0 method : List Char) (topK : Nat)
    (threshold : ℚ) (useQE : Bool)
    (hq : pyStrip query0 ≠ [])
    (hmiss : lookupCache st.queryCache
      ⟨pyStrip query0, method, topK, threshold, useQE⟩ = none)
    (hv : validMethod method = true) :
    searchTop methodFn st query0 method topK threshold useQE =
      Except.ok
        (searchCompute methodFn st (pyStrip query0) method topK threshold useQE) := by
  unfold searchTop
  rw [if_neg hq, hmiss]
  simp [hv]

theorem searchTop_hit_eval (methodFn : List Char → List (Nat × ℚ))
    (st : SearcherState) (query0 method : List Char) (topK : Nat)
    (threshold : ℚ) (useQE : Bool) (cached : List FormattedResult)
    (hq : pyStrip query0 ≠ [])
    (hhit : lookupCache st.queryCache
      ⟨pyStrip query0, method, topK, threshold, useQE⟩ = some cached) :
    searchTop methodFn st query0 method topK threshold useQE =
      Except.ok (cached, st) := by
  unfold searchTop
  rw [if_neg hq, hhit]

theorem formatHit_score (chunks : List DocumentChunk) (p : Nat × ℚ)
    (r : FormattedResult) (h : formatHit chunks p = some r) :
    r.similarityScore = p.2 ∧ r.metadata = some () := by
  unfold formatHit at h
  cases hget : chunks.get? p.1 with
  | none => rw [hget] at h; exact absurd h (by simp)
  | some c =>
    rw [hget] at h
    cases Option.some.inj h
    exact ⟨rfl, rfl⟩

theorem searchCompute_spec (methodFn : List Char → List (Nat × ℚ))
    (st : SearcherState) (query method : List Char) (topK : Nat)
    (threshold : ℚ) (useQE : Bool) :
    (∀ r ∈ (searchCompute methodFn st query method topK threshold useQE).1,
      threshold ≤ r.similarityScore) ∧
    (searchCompute methodFn st query method topK threshold useQE).1.length ≤ topK ∧
    (searchCompute methodFn st query method topK threshold useQE).1.Pairwise
      (fun a b => b.similarityScore ≤ a.similarityScore) ∧
    ((∀ q, ∀ p ∈ methodFn q, p.2 ≤ 1) → threshold = mkRat 11 10 →
      (searchCompute methodFn st query method topK threshold useQE).1 = []) ∧
    (threshold = 0 → 0 < topK →
      (∃ p ∈ methodFn query, p.1 < st.chunks.length ∧ 0 ≤ p.2) →
      (searchCompute methodFn st query method topK threshold useQE).1 ≠ []) := by
  simp only [searchCompute]
  refine ⟨?_, ?_, ?_, ?_, ?_⟩
  · intro r hr
    rcases List.mem_filterMap.mp hr with ⟨p, hp, hfmt⟩
    have hp2 : p ∈ sortDescQ _ := List.take_subset _ _ hp
    have hp3 := (List.perm_insertionSort scoreDescOrder _).subset hp2
    have hp4 := (List.mem_filter.mp hp3).2
    rw [(formatHit_score st.chunks p r hfmt).1]
    exact of_decide_eq_true hp4
  · exact le_trans (List.length_filterMap_le _ _) (List.length_take_le _ _)
  · apply List.pairwise_filterMap.mpr
    have hsorted : List.Pairwise scoreDescOrder
        ((sortDescQ ((runQueries st.chunks.length topK methodFn
          (searchVariants query useQE) []).filter
            (fun p => decide (threshold ≤ p.2)))).take topK) :=
      List.Pairwise.sublist (List.take_sublist _ _)
        (List.sorted_insertionSort scoreDescOrder _)
    refine hsorted.imp ?_
    intro a b hab x hx y hy
    rw [(formatHit_score st.chunks a x hx).1, (formatHit_score st.chunks b y hy).1]
    exact hab
  · intro hle htau
    have hall := runQueries_values_le 1 st.chunks.length topK methodFn hle
      (searchVariants query useQE) [] (by simp)
    have hone : (1 : ℚ) < mkRat 11 10 := by decide
    have hfiltered : (runQueries st.chunks.length topK methodFn
        (searchVariants query useQE) []).filter
          (fun p => decide (threshold ≤ p.2)) = [] := by
      apply List.filter_eq_nil_iff.mpr
      intro p hp
      have := hall p hp
      simp only [decide_eq_true_eq, htau]
      intro hcon
      linarith
    rw [hfiltered]
    simp [sortDescQ, List.insertionSort]
  · intro htau htopk hex
    rcases hex with ⟨p, hp, hlt, hpos⟩
    obtain ⟨qs, hqs⟩ := searchVariants_head query useQE
    rw [hqs]
    rcases runQueries_head_mem st.chunks.length topK methodFn query qs p hp hlt with
      ⟨v, hv, hvp⟩
    have hvfil : (p.1, v) ∈ (runQueries st.chunks.length topK methodFn
        (query :: qs) []).filter (fun p => decide (threshold ≤ p.2)) := by
      apply List.mem_filter.mpr
      refine ⟨hv, decide_eq_true ?_⟩
      rw [htau]
      exact le_trans hpos hvp
    have hkeys := runQueries_keys_lt st.chunks.length topK methodFn (query :: qs) []
      (by simp)
    have hlenfil : 0 < ((runQueries st.chunks.length topK methodFn
        (query :: qs) []).filter (fun p => decide (threshold ≤ p.2))).length :=
      List.length_pos_of_mem hvfil
    have hlenranked : 0 < (sortDescQ ((runQueries st.chunks.length topK methodFn
        (query :: qs) []).filter (fun p => decide (threshold ≤ p.2)))).length := by
      simp only [sortDescQ]
      rw [(List.perm_insertionSort scoreDescOrder _).length_eq]
      exact hlenfil
    have hlentake : 0 < ((sortDescQ ((runQueries st.chunks.length topK methodFn
        (query :: qs) []).filter (fun p => decide (threshold ≤ p.2)))).take
          topK).length := by
      rw [List.length_take]
      omega
    obtain ⟨y, hy⟩ := List.exists_mem_of_length_pos hlentake
    have hy2 : y ∈ sortDescQ _ := List.take_subset _ _ hy
    have hy3 := (List.perm_insertionSort scoreDescOrder _).subset hy2
    have hy4 : y.1 < st.chunks.length := hkeys y (List.mem_of_mem_filter hy3)
    obtain ⟨c, hc⟩ : ∃ c, st.chunks.get? y.1 = some c :=
      ⟨st.chunks.get ⟨y.1, hy4⟩, List.get?_eq_get hy4⟩
    have hfmt : formatHit st.chunks y =
        some ⟨y.1, c.content, c.sourceFile, y.2, c.keywords.take 3, some ()⟩ := by
      unfold formatHit
      rw [hc]
    exact List.ne_nil_of_mem (List.mem_filterMap.mpr ⟨y, hy, hfmt⟩)

/-- Claim C5 (amended): for every call to the top-level `search` with a
non-empty query whose arguments miss the query cache, every returned hit
has `similarity_score ≥ similarity_threshold`, at most `top_k` hits are
returned, and they are sorted by score descending; when every score the
selected method produces is at most 1 (as the hybrid method guarantees),
`similarity_threshold = 1.1` yields an empty list, and
`similarity_threshold = 0.0` yields at least one hit whenever the method
matches some in-range chunk.  On a cache hit the threshold clause fails:
see `C5_counterexample`. -/
theorem C5_search_contract (methodFn : List Char → List (Nat × ℚ))
    (st : SearcherState) (query0 method : List Char) (topK : Nat)
    (threshold : ℚ) (useQE : Bool) (res : List FormattedResult)
    (st2 : SearcherState)
    (hq : pyStrip query0 ≠ [])
    (hmiss : lookupCache st.queryCache
      ⟨pyStrip query0, method, topK, threshold, useQE⟩ = none)
    (hok : searchTop methodFn st query0 method topK threshold useQE =
      Except.ok (res, st2)) :
    (∀ r ∈ res, threshold ≤ r.similarityScore) ∧
    res.length ≤ topK ∧
    res.Pairwise (fun a b => b.similarityScore ≤ a.similarityScore) ∧
    ((∀ q, ∀ p ∈ methodFn q, p.2 ≤ 1) → threshold = mkRat 11 10 → res = []) ∧
    (threshold = 0 → 0 < topK →
      (∃ p ∈ methodFn (pyStrip query0), p.1 < st.chunks.length ∧ 0 ≤ p.2) →
      res ≠ []) := by
  by_cases hv : validMethod method = true
  · rw [searchTop_miss_eval methodFn st query0 method topK threshold useQE hq hmiss hv]
      at hok
    have hres : res = (searchCompute methodFn st (pyStrip query0) method topK
        threshold useQE).1 := congrArg Prod.fst (Except.ok.inj hok).symm
    subst hres
    exact searchCompute_spec methodFn st (pyStrip query0) method topK threshold useQE
  · have heval : searchTop methodFn st query0 method topK threshold useQE =
        Except.error "不支持的搜索方法".toList := by
      unfold searchTop
      rw [if_neg hq, hmiss]
      simp [hv]
    rw [heval] at hok
    exact absurd hok (by simp)

/-- Witness for `C5_search_contract`: the first call on the two-chunk
instance with threshold 0.037023, `top_k = 5`, hybrid method, no
expansion. -/
theorem C5_witness :
    (∀ r ∈ [(⟨1, "内容一".toList, "b.txt".toList, mkRat 3 10, [], some ()⟩ :
          FormattedResult),
        ⟨0, "内容零".toList, "a.txt".toList, c5Threshold, [], some ()⟩],
      c5Threshold ≤ r.similarityScore) ∧
    ([(⟨1, "内容一".toList, "b.txt".toList, mkRat 3 10, [], some ()⟩ :
          FormattedResult),
        ⟨0, "内容零".toList, "a.txt".toList, c5Threshold, [], some ()⟩] :
      List FormattedResult).length ≤ 5 ∧
    List.Pairwise (fun a b => b.similarityScore ≤ a.similarityScore)
      [(⟨1, "内容一".toList, "b.txt".toList, mkRat 3 10, [], some ()⟩ :
          FormattedResult),
        ⟨0, "内容零".toList, "a.txt".toList, c5Threshold, [], some ()⟩] ∧
    ((∀ q, ∀ p ∈ c5MethodFn q, p.2 ≤ 1) → c5Threshold = mkRat 11 10 →
      [(⟨1, "内容一".toList, "b.txt".toList, mkRat 3 10, [], some ()⟩ :
          FormattedResult),
        ⟨0, "内容零".toList, "a.txt".toList, c5Threshold, [], some ()⟩] = []) ∧
    (c5Threshold = 0 → 0 < 5 →
      (∃ p ∈ c5MethodFn (pyStrip "ab".toList),
        p.1 < c5State0.chunks.length ∧ 0 ≤ p.2) →
      [(⟨1, "内容一".toList, "b.txt".toList, mkRat 3 10, [], some ()⟩ :
          FormattedResult),
        ⟨0, "内容零".toList, "a.txt".toList, c5Threshold, [], some ()⟩] ≠ []) :=
  C5_search_contract c5MethodFn c5State0 "ab".toList "hybrid".toList 5
    c5Threshold false _ c5State1 (by decide) rfl rfl

/-- Counterexample to claim C5 as stated: on the two-chunk instance, the
second call with identical arguments is served from the cache, whose
entries carry scores rounded to 4 decimals — chunk 0's exact score
0.037023 was cached as 0.037, strictly below the similarity threshold
0.037023, so this call returns a hit with
`similarity_score < similarity_threshold`. -/
theorem C5_counterexample :
    searchTop c5MethodFn c5State1 "ab".toList "hybrid".toList 5 c5Threshold
        false =
      Except.ok
        ([⟨1, "内容一".toList, "b.txt".toList, mkRat 3 10, [], none⟩,
          ⟨0, "内容零".toList, "a.txt".toList, mkRat 37 1000, [], none⟩],
         c5State1) ∧
    mkRat 37 1000 < c5Threshold :=
  ⟨rfl, by decide⟩

/-! ## Claim C10: a repeated search returns the compressed cache entry -/

theorem lookupCache_drop_none (l : List (SearchArgs × List FormattedResult))
    (n : Nat) (k : SearchArgs) (hnone : lookupCache l k = none) :
    lookupCache (l.drop n) k = none := by
  unfold lookupCache at hnone ⊢
  have hfln : l.find? (fun p => p.1 = k) = none := by
    cases hfl : l.find? (fun p => p.1 = k) with
    | none => rfl
    | some q => rw [hfl] at hnone; exact absurd hnone (by simp)
  cases hfd : (l.drop n).find? (fun p => p.1 = k) with
  | none => rfl
  | some q =>
    have hq := List.mem_of_find?_eq_some hfd
    have hqin : q ∈ l := List.drop_subset n l hq
    exact absurd (List.find?_some hfd) (List.find?_eq_none.mp hfln q hqin)

theorem lookupCache_append_self (l : List (SearchArgs × List FormattedResult))
    (k : SearchArgs) (v : List FormattedResult)
    (hnone : lookupCache l k = none) :
    lookupCache (l ++ [(k, v)]) k = some v := by
  unfold lookupCache at hnone ⊢
  induction l with
  | nil => simp
  | cons p rest ih =>
    by_cases hp : p.1 = k
    · rw [List.find?_cons_of_pos _ (by simp [hp])] at hnone
      exact absurd hnone (by simp)
    · rw [List.find?_cons_of_neg _ (by simp [hp])] at hnone
      rw [List.cons_append, List.find?_cons_of_neg _ (by simp [hp])]
      exact ih hnone

/-- Claim C10: `search` is not idempotent in its returned value — a call
whose arguments miss the cache returns the freshly formatted hits (each
carrying the `metadata` key), while a second call with identical
arguments returns the compressed cached entries: content truncated to at
most 200 characters plus an ellipsis (203 characters total), score
rounded to 4 decimals, at most 2 keywords, and no `metadata` key. -/
theorem C10_second_call_returns_compressed
    (methodFn : List Char → List (Nat × ℚ)) (st : SearcherState)
    (query0 method : List Char) (topK : Nat) (threshold : ℚ) (useQE : Bool)
    (res : List FormattedResult) (st2 : SearcherState)
    (hmiss : lookupCache st.queryCache
      ⟨pyStrip query0, method, topK, threshold, useQE⟩ = none)
    (hok : searchTop methodFn st query0 method topK threshold useQE =
      Except.ok (res, st2)) :
    searchTop methodFn st2 query0 method topK threshold useQE =
      Except.ok (res.map compressResult, st2) ∧
    (∀ r ∈ res, r.metadata = some ()) ∧
    (∀ r ∈ res.map compressResult,
      r.metadata = none ∧ r.keywords.length ≤ 2 ∧ r.content.length ≤ 203) := by
  by_cases hq : pyStrip query0 = []
  · have heval : searchTop methodFn st query0 method topK threshold useQE =
        Except.ok ([], st) := by
      unfold searchTop
      rw [if_pos hq]
    rw [heval] at hok
    injection Except.ok.inj hok with h1 h2
    subst h1
    subst h2
    refine ⟨?_, by simp, by simp⟩
    simpa using heval
  · by_cases hv : validMethod method = true
    · rw [searchTop_miss_eval methodFn st query0 method topK threshold useQE
        hq hmiss hv] at hok
      have hpair := Except.ok.inj hok
      have hres : (searchCompute methodFn st (pyStrip query0) method topK
          threshold useQE).1 = res := congrArg Prod.fst hpair
      have hst2 : (searchCompute methodFn st (pyStrip query0) method topK
          threshold useQE).2 = st2 := congrArg Prod.snd hpair
      refine ⟨?_, ?_, ?_⟩
      · have hcache : st2.queryCache =
            (if cacheSize ≤ st.queryCache.length then
              st.queryCache.drop (cacheSize / 3) else st.queryCache) ++
            [(⟨pyStrip query0, method, topK, threshold, useQE⟩,
              res.map compressResult)] := by
          rw [← hst2, ← hres]
          rfl
        have hevnone : lookupCache
            (if cacheSize ≤ st.queryCache.length then
              st.queryCache.drop (cacheSize / 3) else st.queryCache)
            ⟨pyStrip query0, method, topK, threshold, useQE⟩ = none := by
          split
          · exact lookupCache_drop_none _ _ _ hmiss
          · exact hmiss
        have hhit : lookupCache st2.queryCache
            ⟨pyStrip query0, method, topK, threshold, useQE⟩ =
            some (res.map compressResult) := by
          rw [hcache]
          exact lookupCache_append_self _ _ _ hevnone
        exact searchTop_hit_eval methodFn st2 query0 method topK threshold
          useQE (res.map compressResult) hq hhit
      · intro r hr
        rw [← hres] at hr
        simp only [searchCompute] at hr
        rcases List.mem_filterMap.mp hr with ⟨p, _, hfmt⟩
        exact (formatHit_score st.chunks p r hfmt).2
      · intro r hr
        rcases List.mem_map.mp hr with ⟨orig, _, hco⟩
        subst hco
        refine ⟨rfl, List.length_take_le 2 _, ?_⟩
        show (if 200 < orig.content.length then
          orig.content.take 200 ++ "...".toList else orig.content).length ≤ 203
        by_cases hc : 200 < orig.content.length
        · rw [if_pos hc, List.length_append, List.length_take]
          have hdots : "...".toList.length = 3 := rfl
          omega
        · rw [if_neg hc]
          omega
    · have heval : searchTop methodFn st query0 method topK threshold useQE =
          Except.error "不支持的搜索方法".toList := by
        unfold searchTop
        rw [if_neg hq, hmiss]
        simp [hv]
      rw [heval] at hok
      exact absurd hok (by simp)

/-- Witness for `C10_second_call_returns_compressed`: the first call on
the two-chunk instance. -/
theorem C10_witness :
    (searchTop c5MethodFn c5State1 "ab".toList "hybrid".toList 5 c5Threshold
        false =
      Except.ok
        (([(⟨1, "内容一".toList, "b.txt".toList, mkRat 3 10, [], some ()⟩ :
              FormattedResult),
           ⟨0, "内容零".toList, "a.txt".toList, c5Threshold, [], some ()⟩] :
          List FormattedResult).map compressResult, c5State1)) ∧
    (∀ r ∈ ([(⟨1, "内容一".toList, "b.txt".toList, mkRat 3 10, [], some ()⟩ :
          FormattedResult),
        ⟨0, "内容零".toList, "a.txt".toList, c5Threshold, [], some ()⟩] :
      List FormattedResult), r.metadata = some ()) ∧
    (∀ r ∈ ([(⟨1, "内容一".toList, "b.txt".toList, mkRat 3 10, [], some ()⟩ :
          FormattedResult),
        ⟨0, "内容零".toList, "a.txt".toList, c5Threshold, [], some ()⟩] :
      List FormattedResult).map compressResult,
      r.metadata = none ∧ r.keywords.length ≤ 2 ∧ r.content.length ≤ 203) :=
  C10_second_call_returns_compressed c5MethodFn c5State0 "ab".toList
    "hybrid".toList 5 c5Threshold false _ c5State1 rfl rfl

/-! ## Lemmas about strftime ids (claim C8) -/

theorem digitChar_lt :
    ∀ d1 : Nat, d1 < 10 → ∀ d2 : Nat, d2 < 10 → d1 < d2 →
      Nat.digitChar d1 < Nat.digitChar d2 := by decide

theorem pad_length : ∀ (k n : Nat), (pad k n).length = k := by
  intro k
  induction k with
  | zero => intro n; rfl
  | succ k ih => intro n; simp [pad, ih]

theorem pad_lt : ∀ (k a b : Nat), a < 10 ^ k → b < 10 ^ k → a < b →
    List.Lex (· < ·) (pad k a) (pad k b) := by
  intro k
  induction k with
  | zero =>
    intro a b ha hb hab
    simp only [pow_zero] at ha hb
    omega
  | succ k ih =>
    intro a b ha hb hab
    have hpow : 10 ^ (k + 1) = 10 ^ k * 10 := pow_succ 10 k
    have hkpos : 0 < 10 ^ k := pow_pos (by omega) k
    have hda : a / 10 ^ k < 10 := by
      rw [Nat.div_lt_iff_lt_mul hkpos]
      omega
    have hdb : b / 10 ^ k < 10 := by
      rw [Nat.div_lt_iff_lt_mul hkpos]
      omega
    rcases Nat.lt_trichotomy (a / 10 ^ k) (b / 10 ^ k) with hd | hd | hd
    · exact List.Lex.rel (digitChar_lt _ hda _ hdb hd)
    · rw [pad, pad, hd]
      apply List.Lex.cons
      apply ih
      · exact Nat.mod_lt a hkpos
      · exact Nat.mod_lt b hkpos
      · have h1 := Nat.div_add_mod a (10 ^ k)
        have h2 := Nat.div_add_mod b (10 ^ k)
        rw [hd] at h1
        have hsum : 10 ^ k * (b / 10 ^ k) + a % 10 ^ k <
            10 ^ k * (b / 10 ^ k) + b % 10 ^ k := by
          rw [h1, h2]
          exact hab
        exact Nat.lt_of_add_lt_add_left hsum
    · exfalso
      have hstep : (b / 10 ^ k + 1) * 10 ^ k ≤ (a / 10 ^ k) * 10 ^ k :=
        Nat.mul_le_mul_right _ (Nat.succ_le_of_lt hd)

      have hblt : b < (b / 10 ^ k + 1) * 10 ^ k := by
        have hmod := Nat.mod_lt b hkpos
        have hdm := Nat.div_add_mod b (10 ^ k)
        calc b = 10 ^ k * (b / 10 ^ k) + b % 10 ^ k := hdm.symm
          _ < 10 ^ k * (b / 10 ^ k) + 10 ^ k := by omega
          _ = (b / 10 ^ k + 1) * 10 ^ k := by ring
      have hale : (a / 10 ^ k) * 10 ^ k ≤ a := Nat.div_mul_le_self a (10 ^ k)
      omega

theorem lex_append_left_same {r : Char → Char → Prop} :
    ∀ (xs as bs : List Char), List.Lex r as bs →
      List.Lex r (xs ++ as) (xs ++ bs) := by
  intro xs
  induction xs with
  | nil => intro as bs h; exact h
  | cons c cs ih => intro as bs h; exact List.Lex.cons (ih as bs h)

theorem lex_append_of_lex {r : Char → Char → Prop} :
    ∀ (as bs cs ds : List Char), as.length = bs.length →
      List.Lex r as bs → List.Lex r (as ++ cs) (bs ++ ds) := by
  intro as
  induction as with
  | nil =>
    intro bs cs ds hlen h
    cases bs with
    | nil => cases h
    | cons b bs1 => simp at hlen
  | cons a as1 ih =>
    intro bs cs ds hlen h
    cases bs with
    | nil => simp at hlen
    | cons b bs1 =>
      cases h with
      | rel hr => exact List.Lex.rel hr
      | cons htail =>
        exact List.Lex.cons (ih bs1 cs ds (by simpa using hlen) htail)

theorem lex_char_ne {xs ys : List Char} (h : List.Lex (· < ·) xs ys) :
    xs ≠ ys := by
  induction h with
  | nil => simp
  | rel hr =>
    intro hcon
    injection hcon with h1 _
    exact absurd (h1 ▸ hr) (lt_irrefl _)
  | cons _ ih =>
    intro hcon
    injection hcon with _ h2
    exact ih h2

theorem pow4_eq : (10 : ℕ) ^ 4 = 10000 := by norm_num

theorem pow2_eq : (10 : ℕ) ^ 2 = 100 := by norm_num

theorem pow3_eq : (10 : ℕ) ^ 3 = 1000 := by norm_num

theorem idChars_lt (a b : PyDateTime) (ha : validDT a) (hb : validDT b)
    (h : dtKey a < dtKey b) : List.Lex (· < ·) (idChars a) (idChars b) := by
  obtain ⟨hay, ham, had, hah, hami, has, hams⟩ := ha
  obtain ⟨hby, hbm, hbd, hbh, hbmi, hbs, hbms⟩ := hb
  unfold dtKey at h
  unfold idChars
  have hplen : ∀ k n m : Nat, (pad k n).length = (pad k m).length := by
    intro k n m
    rw [pad_length, pad_length]
  rcases Nat.lt_trichotomy a.year b.year with hy | hy | hy
  · exact lex_append_of_lex _ _ _ _ (hplen 4 _ _)
      (pad_lt 4 _ _ (pow4_eq ▸ hay) (pow4_eq ▸ hby) hy)
  · rw [show pad 4 a.year = pad 4 b.year from by rw [hy]]
    apply lex_append_left_same
    rcases Nat.lt_trichotomy a.month b.month with hm | hm | hm
    · exact lex_append_of_lex _ _ _ _ (hplen 2 _ _)
        (pad_lt 2 _ _ (pow2_eq ▸ ham) (pow2_eq ▸ hbm) hm)
    · rw [show pad 2 a.month = pad 2 b.month from by rw [hm]]
      apply lex_append_left_same
      rcases Nat.lt_trichotomy a.day b.day with hd | hd | hd
      · exact lex_append_of_lex _ _ _ _ (hplen 2 _ _)
          (pad_lt 2 _ _ (pow2_eq ▸ had) (pow2_eq ▸ hbd) hd)
      · rw [show pad 2 a.day = pad 2 b.day from by rw [hd]]
        apply lex_append_left_same
        apply lex_append_left_same ['_']
        rcases Nat.lt_trichotomy a.hour b.hour with hh | hh | hh
        · exact lex_append_of_lex _ _ _ _ (hplen 2 _ _)
            (pad_lt 2 _ _ (pow2_eq ▸ hah) (pow2_eq ▸ hbh) hh)
        · rw [show pad 2 a.hour = pad 2 b.hour from by rw [hh]]
          apply lex_append_left_same
          rcases Nat.lt_trichotomy a.minute b.minute with hmi | hmi | hmi
          · exact lex_append_of_lex _ _ _ _ (hplen 2 _ _)
              (pad_lt 2 _ _ (pow2_eq ▸ hami) (pow2_eq ▸ hbmi) hmi)
          · rw [show pad 2 a.minute = pad 2 b.minute from by rw [hmi]]
            apply lex_append_left_same
            rcases Nat.lt_trichotomy a.second b.second with hs | hs | hs
            · exact lex_append_of_lex _ _ _ _ (hplen 2 _ _)
                (pad_lt 2 _ _ (pow2_eq ▸ has) (pow2_eq ▸ hbs) hs)
            · rw [show pad 2 a.second = pad 2 b.second from by rw [hs]]
              apply lex_append_left_same
              apply lex_append_left_same ['_']
              rcases Nat.lt_trichotomy a.millis b.millis with hms | hms | hms
              · exact pad_lt 3 _ _ (pow3_eq ▸ hams) (pow3_eq ▸ hbms) hms
              · exfalso
                rw [hy, hm, hd, hh, hmi, hs, hms] at h
                exact lt_irrefl _ h
              · exfalso
                omega
            · exfalso
              omega
          · exfalso
            omega
        · exfalso
          omega
      · exfalso
        omega
    · exfalso
      omega
  · exfalso
    omega

theorem historyAfter_append (q dm ys fm mdl hex res : List Char) :
    ∀ (times : List PyDateTime) (init : List HistoryRecordL),
      times.foldl
        (fun st t => (addRecord t st q dm ys fm mdl hex res [] []).2) init =
      (times.map (fun t => mkHistoryRecord t q dm ys fm mdl hex res)).reverse ++
        init := by
  intro times
  induction times with
  | nil => intro init; simp
  | cons t rest ih =>
    intro init
    simp only [List.foldl_cons, List.map_cons, List.reverse_cons]
    rw [ih]
    show (rest.map (fun t => mkHistoryRecord t q dm ys fm mdl hex res)).reverse ++
        (mkHistoryRecord t q dm ys fm mdl hex res :: init) = _
    rw [List.append_assoc]
    rfl

/-! ## Claim C8: history record ids -/

/-- Claim C8 (amended): starting from a fresh manager, provided the
successive `datetime.now()` readings strictly increase at the
millisecond resolution the id carries, the generated ids are pairwise
distinct, strictly increasing (in Python string order, i.e.
lexicographically) in creation order, and the most recently added record
sits at index 0.  Without the clock hypothesis the id uniqueness fails:
see `C8_counterexample`. -/
theorem C8_ids_unique_monotone (q dm ys fm mdl hex res : List Char)
    (times : List PyDateTime)
    (hvalid : ∀ t ∈ times, validDT t)
    (hinc : times.Pairwise (fun t1 t2 => dtKey t1 < dtKey t2)) :
    historyAfter q dm ys fm mdl hex res times =
      (times.map (fun t => mkHistoryRecord t q dm ys fm mdl hex res)).reverse ∧
    (times.map idChars).Pairwise (List.Lex (· < ·)) ∧
    (times.map idChars).Nodup ∧
    (historyAfter q dm ys fm mdl hex res times).head?.map (fun r => r.id) =
      (times.map idChars).getLast? := by
  have h1 : historyAfter q dm ys fm mdl hex res times =
      (times.map (fun t => mkHistoryRecord t q dm ys fm mdl hex res)).reverse := by
    unfold historyAfter
    simpa using historyAfter_append q dm ys fm mdl hex res times []
  have h2 : (times.map idChars).Pairwise (List.Lex (· < ·)) := by
    apply List.pairwise_map.mpr
    apply List.Pairwise.imp_of_mem ?_ hinc
    intro t1 t2 h1m h2m hr
    exact idChars_lt t1 t2 (hvalid t1 h1m) (hvalid t2 h2m) hr
  refine ⟨h1, h2, ?_, ?_⟩
  · exact h2.imp (fun hl => lex_char_ne hl)
  · rw [h1, List.head?_reverse, List.getLast?_map, List.getLast?_map,
      Option.map_map]
    rfl

/-- Witness for `C8_ids_unique_monotone`: two calls one millisecond
apart. -/
theorem C8_witness :
    historyAfter "问".toList "六爻".toList "用".toList "方".toList "m".toList
        "卦".toList "结".toList
        [⟨2024, 5, 1, 12, 0, 0, 100⟩, ⟨2024, 5, 1, 12, 0, 0, 101⟩] =
      ([⟨2024, 5, 1, 12, 0, 0, 100⟩,
        (⟨2024, 5, 1, 12, 0, 0, 101⟩ : PyDateTime)].map
        (fun t => mkHistoryRecord t "问".toList "六爻".toList "用".toList
          "方".toList "m".toList "卦".toList "结".toList)).reverse ∧
    (([⟨2024, 5, 1, 12, 0, 0, 100⟩,
      (⟨2024, 5, 1, 12, 0, 0, 101⟩ : PyDateTime)]).map idChars).Pairwise
      (List.Lex (· < ·)) ∧
    (([⟨2024, 5, 1, 12, 0, 0, 100⟩,
      (⟨2024, 5, 1, 12, 0, 0, 101⟩ : PyDateTime)]).map idChars).Nodup ∧
    (historyAfter "问".toList "六爻".toList "用".toList "方".toList "m".toList
        "卦".toList "结".toList
        [⟨2024, 5, 1, 12, 0, 0, 100⟩, ⟨2024, 5, 1, 12, 0, 0, 101⟩]).head?.map
        (fun r => r.id) =
      (([⟨2024, 5, 1, 12, 0, 0, 100⟩,
        (⟨2024, 5, 1, 12, 0, 0, 101⟩ : PyDateTime)]).map idChars).getLast? :=
  C8_ids_unique_monotone "问".toList "六爻".toList "用".toList "方".toList
    "m".toList "卦".toList "结".toList
    [⟨2024, 5, 1, 12, 0, 0, 100⟩, ⟨2024, 5, 1, 12, 0, 0, 101⟩]
    (by decide) (by decide)

/-- Counterexample to claim C8 as stated: two `add_record` calls within
the same millisecond produce the same id — the id is derived solely from
the millisecond-truncated clock, so it is not unique across the
in-memory list for every call sequence. -/
theorem C8_counterexample :
    ((historyAfter "问".toList "六爻".toList "用".toList "方".toList
        "m".toList "卦".toList "结".toList
        [⟨2024, 1, 1, 0, 0, 0, 0⟩, ⟨2024, 1, 1, 0, 0, 0, 0⟩]).map
        (fun r => r.id)) =
      ["20240101_000000_000".toList, "20240101_000000_000".toList] ∧
    ¬ ((historyAfter "问".toList "六爻".toList "用".toList "方".toList
        "m".toList "卦".toList "结".toList
        [⟨2024, 1, 1, 0, 0, 0, 0⟩, ⟨2024, 1, 1, 0, 0, 0, 0⟩]).map
        (fun r => r.id)).Nodup := by
  refine ⟨by decide, by decide⟩

/-! ## Claim C9: history deletions ignore persistence failures -/

/-- Claim C9: `clear_all_records` always empties the in-memory list and
returns `True` whatever the `save_history` outcome, and `delete_record`
returns `True` exactly when the id is present, independently of the save
outcome — neither operation rolls back or reports a persistence
failure. -/
theorem C9_save_failure_ignored :
    (∀ (saveOk : Bool) (records : List HistoryRecordL),
        clearAllRecords saveOk records = ([], true)) ∧
    (∀ (saveOk : Bool) (rid : List Char) (records : List HistoryRecordL),
        ((deleteRecord saveOk rid records).2 = true ↔
          rid ∈ records.map (fun r => r.id)) ∧
        deleteRecord saveOk rid records = deleteRecord (!saveOk) rid records) := by
  refine ⟨fun _ _ => rfl, ?_⟩
  intro saveOk rid records
  induction records with
  | nil => simp [deleteRecord]
  | cons r rest ih =>
    by_cases h : r.id = rid
    · simp [deleteRecord, h]
    · constructor
      · rw [deleteRecord, if_neg h]
        simp only [List.map_cons, List.mem_cons]
        rw [ih.1]
        have : ¬ rid = r.id := fun hh => h hh.symm
        tauto
      · rw [deleteRecord, if_neg h, deleteRecord, if_neg h, ih.2]

end LiuYao
